import Mathlib

/-!
# Verification of the CVTM archive container ("adapter-utility")

A shallow embedding, in Lean 4, of the core of the CVTM append-only archive
container: the typed entry codec, the empty-archive writer (header assembly,
layout, end pointers, sentinel), the archive header reader, and the QCOW2
synthesizer's offset arithmetic.  Go machine integers are modelled as `Nat`
(with explicit `% 2^w` where overflow can matter) or `Int` where the source
uses signed arithmetic; byte strings are `List Nat` with every element below
256; fallible operations return `Option` or `Except`.

External collaborators of the core are parameters of the model:

* the SHA-256 / CRC32C checksum primitives (Go's `crypto/sha256`,
  `hash/crc32`) appear as an explicit function argument `h : List Nat → List Nat`;
* the random byte source appears as an explicit byte-list argument;
* RSA-OAEP and PKCS#1 key marshalling (Go's `crypto/rsa`, `crypto/x509`)
  appear only through the marshalled key bytes and the modulus size, which is
  all the writer's layout arithmetic consumes.

Everything else is translated directly from the Go sources
(`archive/common.go` and the unnamed parts of package `archive`).
-/

namespace Cvtm

/-! ## Bytes and little-endian integers

A byte string is a `List Nat`; all constructors keep elements below 256.
-/

/-- Little-endian byte encoding of `n`, truncated to `w` bytes
(Go `binary.LittleEndian` writing a `w`-byte integer). -/
def leBytes (w : Nat) (n : Nat) : List Nat :=
  match w with
  | 0 => []
  | w + 1 => n % 256 :: leBytes w (n / 256)

/-- Little-endian value of a byte list (Go `binary.LittleEndian` reading). -/
def leVal (l : List Nat) : Nat :=
  match l with
  | [] => 0
  | b :: rest => b + 256 * leVal rest

/-- Read the 32-bit little-endian integer stored at byte offsets
`[pos, pos+4)` of `data` (Go `binary.LittleEndian.Uint32(data[pos:pos+4])`). -/
def readLE32 (data : List Nat) (pos : Nat) : Nat :=
  leVal ((data.drop pos).take 4)

/-- `size` zero bytes (Go `writeZeros`). -/
def zeros (n : Nat) : List Nat := List.replicate n 0

/-- Overwrite `data[pos : pos+v.length)` with `v`, clipped to the length of
`data` (Go `copy(data[pos:], v)` semantics on a slice of fixed length). -/
def setSlice (data : List Nat) (pos : Nat) (v : List Nat) : List Nat :=
  data.take pos ++ v.take (data.length - pos) ++ data.drop (pos + v.length)

/-! ## The typed entry codec (package `entries` and `parseEntry` / `splitEntries` / `writeEntry`)

Go drives the codec by reflection over the structs of package `entries`.
The reflective schema of a struct is, concretely, the ordered list of its
fixed-width fields (a `[k]byte` array or unsigned integer is one field of
`k` bytes, read and written with `encoding/binary` in little-endian order)
plus at most one trailing variable-length byte slice (`Key []byte`).  The
shallow embedding records exactly that data. -/

structure Schema where
  /-- Byte widths of the fixed fields, in declaration order. -/
  widths : List Nat
  /-- Whether a trailing variable-length byte field follows (`Key []byte`). -/
  hasTail : Bool
  deriving DecidableEq, Repr

/-- Total byte size of the fixed fields (`binary.Size` for tail-free structs). -/
def Schema.totalFixed (s : Schema) : Nat := s.widths.sum

/-- A decoded payload value: one `Nat` per fixed field plus the tail bytes
(`[]` both for an absent and for an empty tail, matching Go, where the
decoder leaves the slice field `nil` when no bytes remain). -/
structure Payload where
  vals : List Nat
  tail : List Nat
  deriving DecidableEq, Repr

/-- A payload the Go type system could actually hold: each fixed field value
fits its width, the tail is bytes, and only tail-carrying types have one. -/
def legalPayload (s : Schema) (p : Payload) : Prop :=
  List.Forall₂ (fun w v => v < 256 ^ w) s.widths p.vals ∧
    (∀ b ∈ p.tail, b < 256) ∧ (s.hasTail = false → p.tail = [])

/-- Encode the fixed fields in order (the field loop of Go `writeEntry`,
each field written via `binary.Write` in little-endian order). -/
def encodeFields : List Nat → List Nat → List Nat
  | [], _ => []
  | _ :: _, [] => []
  | w :: ws, v :: vs => leBytes w v ++ encodeFields ws vs

/-- Decode the fixed fields in order (sequential `binary.Read` of each
field; only called on byte strings long enough for all fields). -/
def parseFields : List Nat → List Nat → List Nat
  | [], _ => []
  | w :: ws, data => leVal (data.take w) :: parseFields ws (data.drop w)

/-- Go `parseEntry` (src/unnamed/part_001, lines 70-104), for one entry's
payload bytes `data`.

The initial whole-struct `binary.Read` is handed `dest.Interface()` — a
*non-pointer* struct value (both call sites in `parseEntries` pass an
addressable struct `reflect.Value`, and `Interface()` boxes a copy) — so
`encoding/binary.Read` fails with its `invalid type` error before reading
a single byte.  The `io.EOF` tolerance branch ("an entry missing some
fields should not be an error") and the `io.ErrUnexpectedEOF` branch
behind that call are therefore dead code for every registered type.

Control always reaches the manual field loop: each fixed field is read in
order with `binary.Read` on `v.Addr().Interface()` (a true pointer), where
an exhausted reader yields `io.EOF` and a partial field
`io.ErrUnexpectedEOF` — either aborts the loop and becomes `badEntry`; a
trailing byte-slice field receives the bytes left after the fixed fields
(left `nil` when none remain), and for tail-less structs extra bytes are
silently ignored.  So decoding succeeds exactly when `data` covers the
fixed-field set, and *every* shorter payload — empty, stopping on a field
boundary, or mid-field — is a `badEntry`.

`none` is Go's `badEntry`. -/
def parseEntry (s : Schema) (data : List Nat) : Option Payload :=
  if data.length < s.totalFixed then none
  else if s.hasTail then some ⟨parseFields s.widths data, data.drop s.totalFixed⟩
  else some ⟨parseFields s.widths data, []⟩

/-- One raw entry produced by region splitting: its byte position in the
region, its 16-byte TypeID and its payload bytes (Go `entryRead` plus the
TypeID key it is bucketed under). -/
structure EntryRead where
  atPos : Nat
  typeId : List Nat
  data : List Nat
  deriving DecidableEq, Repr

/-- Outcome of Go `splitEntries`: a bucket list, a `badEntry` error, or a
runtime panic (Go's `slice bounds out of range`), which the model records
as `crash`. -/
inductive SplitResult where
  | ok (ents : List EntryRead)
  | badEntry (pos : Nat)
  | crash
  deriving DecidableEq, Repr

/-- The loop body of Go `splitEntries`, made structurally recursive on a
step budget so that the kernel can evaluate it.  Each surviving step
consumes at least 20 bytes, so a budget of `data.length` always suffices;
`splitEntries_eq` below recovers the budget-free unfolding.  Each step
reads the declared 32-bit length at `[16,20)`; `entSize > len(data)` is a
`badEntry`; otherwise the payload is `data[20:entSize]` — which, for
`entSize < 20`, is a Go slice-bounds violation and panics (`crash`). -/
def splitEntriesFuel (fuel : Nat) (data : List Nat) (start : Nat) : SplitResult :=
  match fuel with
  | 0 => if data.length = 0 then .ok [] else .crash
  | fuel + 1 =>
    if data.length = 0 then .ok []
    else if data.length < 20 then .badEntry start
    else if data.length < readLE32 data 16 then .badEntry start
    else if readLE32 data 16 < 20 then .crash
    else
      match splitEntriesFuel fuel (data.drop (readLE32 data 16))
          (start + readLE32 data 16) with
      | .ok rest =>
        .ok (⟨start, data.take 16, (data.take (readLE32 data 16)).drop 20⟩ :: rest)
      | e => e

/-- Go `splitEntries` (src/unnamed/part_001, lines 106-128). -/
def splitEntries (data : List Nat) (start : Nat) : SplitResult :=
  splitEntriesFuel data.length data start

/-- Go `writeEntry` (archive/common.go, lines 332-372): the 16-byte TypeID,
the 32-bit little-endian total length `20 + payload size`, then the fields
and the tail bytes. -/
def writeEntry (id : List Nat) (s : Schema) (p : Payload) : List Nat :=
  id ++ leBytes 4 (20 + (encodeFields s.widths p.vals ++ p.tail).length) ++
    (encodeFields s.widths p.vals ++ p.tail)

/-! ### The TypeID registry (package `entries`, fixed on disk) -/

/-- `"CVTM-MAGIC\x00..."`; fields `Checksum [32]byte`, `HeaderLength uint32`. -/
def idCvtmMagic : List Nat := [67, 86, 84, 77, 45, 77, 65, 71, 73, 67, 0, 0, 0, 0, 0, 0]

def schemaCvtmMagic : Schema := ⟨[32, 4], false⟩

/-- `"ALLOCATE-ONCE\x00..."`; field `AllocationIncrement uint32`. -/
def idAllocateOnce : List Nat := [65, 76, 76, 79, 67, 65, 84, 69, 45, 79, 78, 67, 69, 0, 0, 0]

def schemaAllocateOnce : Schema := ⟨[4], false⟩

/-- `"END-POINTER-CHEC"`; field `Algo uint32`. -/
def idEndPointerChec : List Nat := [69, 78, 68, 45, 80, 79, 73, 78, 84, 69, 82, 45, 67, 72, 69, 67]

def schemaEndPointerChec : Schema := ⟨[4], false⟩

/-- `"END-POINTER-LOCA"`; field `Blk uint32`. -/
def idEndPointerLoca : List Nat := [69, 78, 68, 45, 80, 79, 73, 78, 84, 69, 82, 45, 76, 79, 67, 65]

def schemaEndPointerLoca : Schema := ⟨[4], false⟩

/-- `"ENDING-CIPHER\x00..."`; fields `Algo uint32`, `Key []byte`. -/
def idEndingCipher : List Nat := [69, 78, 68, 73, 78, 71, 45, 67, 73, 80, 72, 69, 82, 0, 0, 0]

def schemaEndingCipher : Schema := ⟨[4], true⟩

/-- `"ENDING-SIZE\x00..."`; field `Size uint32`. -/
def idEndingSize : List Nat := [69, 78, 68, 73, 78, 71, 45, 83, 73, 90, 69, 0, 0, 0, 0, 0]

def schemaEndingSize : Schema := ⟨[4], false⟩

/-- `"GLOBAL-LOG-LOCAT"`; fields `Start uint32`, `Count uint32`. -/
def idGlobalLogLocat : List Nat := [71, 76, 79, 66, 65, 76, 45, 76, 79, 71, 45, 76, 79, 67, 65, 84]

def schemaGlobalLogLocat : Schema := ⟨[4, 4], false⟩

/-- `"IMAGE-AREA\x00..."`; fields `Start uint32`, `End uint32`. -/
def idImageArea : List Nat := [73, 77, 65, 71, 69, 45, 65, 82, 69, 65, 0, 0, 0, 0, 0, 0]

def schemaImageArea : Schema := ⟨[4, 4], false⟩

/-- `"IMAGE-BASIC\x00..."`; fields `ImgCipher uint32`, `ImgClusterSizeExp byte`. -/
def idImageBasic : List Nat := [73, 77, 65, 71, 69, 45, 66, 65, 83, 73, 67, 0, 0, 0, 0, 0]

def schemaImageBasic : Schema := ⟨[4, 1], false⟩

/-- `"IMAGE-LOG\x00..."`; field `BlkCount uint32`. -/
def idImageLog : List Nat := [73, 77, 65, 71, 69, 45, 76, 79, 71, 0, 0, 0, 0, 0, 0, 0]

def schemaImageLog : Schema := ⟨[4], false⟩

/-- `"SD-CID\x00..."`; field `SdCid [15]byte`. -/
def idSdCid : List Nat := [83, 68, 45, 67, 73, 68, 0, 0, 0, 0, 0, 0, 0, 0, 0, 0]

def schemaSdCid : Schema := ⟨[15], false⟩

/-- `"NO-MORE-IMAGES\x00\x00"`; no fields. -/
def idNoMoreImages : List Nat := [78, 79, 45, 77, 79, 82, 69, 45, 73, 77, 65, 71, 69, 83, 0, 0]

def schemaNoMoreImages : Schema := ⟨[], false⟩

/-- `"ENDING\x00..."`; fields `Length`, `Start`, `Prev`, `DataClusterCount`
(all `uint32`), `ClusterSizeExp byte`, `ClustersOffset uint32`. -/
def idEnding : List Nat := [69, 78, 68, 73, 78, 71, 0, 0, 0, 0, 0, 0, 0, 0, 0, 0]

def schemaEnding : Schema := ⟨[4, 4, 4, 4, 1, 4], false⟩

/-- `"IMAGE-KEY\x00..."`; field `Key []byte`. -/
def idImageKey : List Nat := [73, 77, 65, 71, 69, 45, 75, 69, 89, 0, 0, 0, 0, 0, 0, 0]

def schemaImageKey : Schema := ⟨[], true⟩

/-- `"IMAGE-LOG-LOCATI"`; fields `Offset uint32`, `Size uint32`. -/
def idImageLogLocati : List Nat := [73, 77, 65, 71, 69, 45, 76, 79, 71, 45, 76, 79, 67, 65, 84, 73]

def schemaImageLogLocati : Schema := ⟨[4, 4], false⟩

/-- The closed TypeID registry (`entries.TypeToID`). -/
def entryRegistry : List (List Nat × Schema) :=
  [(idCvtmMagic, schemaCvtmMagic), (idAllocateOnce, schemaAllocateOnce),
   (idEndPointerChec, schemaEndPointerChec), (idEndPointerLoca, schemaEndPointerLoca),
   (idEndingCipher, schemaEndingCipher), (idEndingSize, schemaEndingSize),
   (idGlobalLogLocat, schemaGlobalLogLocat), (idImageArea, schemaImageArea),
   (idImageBasic, schemaImageBasic), (idImageLog, schemaImageLog),
   (idSdCid, schemaSdCid), (idNoMoreImages, schemaNoMoreImages),
   (idEnding, schemaEnding), (idImageKey, schemaImageKey),
   (idImageLogLocati, schemaImageLogLocati)]

/-! ## The empty-archive writer (`WriteEmptyArchive`, archive/common.go)

Go computes layout offsets with `int64` arithmetic and two's-complement bit
tricks (`(n + (a-1)) & -a`); the embedding mirrors them on the 64-bit
residue, as `Nat.land` against `2^64 - a`.  The checksum primitive selected
by `EndPointerChecksum` (SHA-256, or CRC32C extended with 28 zero bytes) is
an external library call and appears as the function argument `h`. -/

/-- Go `alignUp` (archive/common.go): `(n + (alignment-1)) & -alignment`
over `int64`, for nonnegative `n` below `2^63`. -/
def alignUp64 (n a : Nat) : Nat :=
  Nat.land (n + (a - 1)) ((2 ^ 64 - a) % 2 ^ 64)

/-- Go `alignDown`: `n & -alignment` over `int64`. -/
def alignDown64 (n a : Nat) : Nat :=
  Nat.land n ((2 ^ 64 - a) % 2 ^ 64)

/-- Go `uint32(·)` on a nonnegative value. -/
def u32 (n : Nat) : Nat := n % 2 ^ 32

/-- Go `uint32(·)` on an `int64` value (two's-complement truncation). -/
def u32I (i : Int) : Nat := (i % 2 ^ 32).toNat

/-- The 32-byte constant `"END-POINTER\x00...\x00"` written over the
checksum field before hashing an end-pointer block. -/
def endPointerLiteral : List Nat :=
  [69, 78, 68, 45, 80, 79, 73, 78, 84, 69, 82] ++ zeros 21

/-- Go `computeEndPointerChecksum`: overwrite `data[:32]` with the literal,
then apply the selected checksum primitive `h` (SHA-256 yields 32 bytes;
CRC32C yields 4 little-endian bytes followed by 28 zero bytes). -/
def computeEndPointerChecksum (h : List Nat → List Nat) (data : List Nat) : List Nat :=
  h (setSlice data 0 endPointerLiteral)

/-- Go `makeEndPointer` (archive/common.go, lines 458-466): a zeroed
512-byte block, the 32-bit little-endian target at `[32,36)`, and the
checksum copied over `[0,32)`. -/
def makeEndPointer (h : List Nat → List Nat) (pointTo : Nat) : List Nat :=
  let d := setSlice (zeros 512) 32 (leBytes 4 pointTo)
  setSlice d 0 ((computeEndPointerChecksum h d).take 32)

/-- Copy a hash result into a `[32]byte` field (`copy` fills at most 32
bytes; missing bytes keep their zero values). -/
def fit32 (l : List Nat) : List Nat := l.take 32 ++ zeros (32 - l.length)

/-- Go `NewArchiveOptions`.  `rsaKeySize` is `PublicKeyRSA.Size()` (the
modulus byte length); `rsaKeyBytes` is `x509.MarshalPKCS1PublicKey`'s
output. Log configurations are reduced to their `Size` field. -/
structure NewArchiveOptions where
  diskSize : Nat
  globalLogs : List Nat
  imgLogs : List Nat
  endPointersHead : Nat
  endPointersTail : Nat
  endingCipher : Nat
  endPointerChecksum : Nat
  rsaKeySize : Nat
  rsaKeyBytes : List Nat
  imgCipher : Nat
  imgClusterSizeExp : Nat
  alignmentBlocks : Nat
  deriving DecidableEq, Repr

/-- Go `entries.ArchiveHeaderWrite`, with each record reduced to its field
values (`Optional` is always empty in `WriteEmptyArchive`). -/
structure ArchiveHeaderWrite where
  checksum : List Nat
  headerLength : Nat
  endPointerChec : Nat
  endPointerLoca : List Nat
  endingCipherAlgo : Nat
  endingCipherKey : List Nat
  endingSize : Nat
  globalLogLocat : List (Nat × Nat)
  imageArea : Nat × Nat
  imgCipher : Nat
  imgClusterSizeExp : Nat
  imageLog : List Nat
  deriving DecidableEq, Repr

/-- Go `writeMultipleEntries` applied to an `ArchiveHeaderWrite`: one entry
per record, slices expanded element-wise, in struct field order. -/
def serializeHeader (hdr : ArchiveHeaderWrite) : List Nat :=
  writeEntry idCvtmMagic schemaCvtmMagic ⟨[leVal hdr.checksum, hdr.headerLength], []⟩ ++
  writeEntry idEndPointerChec schemaEndPointerChec ⟨[hdr.endPointerChec], []⟩ ++
  (hdr.endPointerLoca.map
    (fun b => writeEntry idEndPointerLoca schemaEndPointerLoca ⟨[b], []⟩)).flatten ++
  writeEntry idEndingCipher schemaEndingCipher ⟨[hdr.endingCipherAlgo], hdr.endingCipherKey⟩ ++
  writeEntry idEndingSize schemaEndingSize ⟨[hdr.endingSize], []⟩ ++
  (hdr.globalLogLocat.map
    (fun g => writeEntry idGlobalLogLocat schemaGlobalLogLocat ⟨[g.1, g.2], []⟩)).flatten ++
  writeEntry idImageArea schemaImageArea ⟨[hdr.imageArea.1, hdr.imageArea.2], []⟩ ++
  writeEntry idImageBasic schemaImageBasic ⟨[hdr.imgCipher, hdr.imgClusterSizeExp], []⟩ ++
  (hdr.imageLog.map (fun c => writeEntry idImageLog schemaImageLog ⟨[c], []⟩)).flatten

/-- Errors of the writer path.  `writerCrash` stands for conditions under
which the Go writer would panic or corrupt state (negative zero-fill or a
backward seek, rejected by `fillSeeker`); `randExhausted` marks the model's
finite random-source argument running dry (the Go source is infinite). -/
inductive WriteErr where
  | unknownCipher
  | notEnoughSpace
  | endingTooLong
  | writerCrash
  | randExhausted
  deriving DecidableEq, Repr

/-- `EndingSize` in blocks, from the `switch conf.EndingCipher` of
`WriteEmptyArchive` (archive/common.go, lines 500-513): 1 for the Null
cipher and `uint32(alignUp(int64(conf.PublicKeyRSA.Size()), BlockSize))`
for RSA; any other value panics (`none`). -/
def writeEmptyArchiveEndingSize (conf : NewArchiveOptions) : Option Nat :=
  match conf.endingCipher with
  | 0 => some 1
  | 1 => some (u32 (alignUp64 conf.rsaKeySize 512))
  | _ => none

/-- The header key bytes: the marshalled public key for RSA, nothing
otherwise. -/
def writeEmptyArchiveEndingKey (conf : NewArchiveOptions) : List Nat :=
  match conf.endingCipher with
  | 1 => conf.rsaKeyBytes
  | _ => []

/-- The layout values computed by `WriteEmptyArchive` before any byte is
written, plus the fully populated header. -/
structure ArchiveLayout where
  endingSize : Nat
  headerSize : Nat
  endPointerStart : Nat
  imgAreaStart : Nat
  imgAreaEnd : Int
  sentinelEnd : Nat
  header : ArchiveHeaderWrite
  deriving DecidableEq, Repr

/-- The layout and header-assembly part of Go `WriteEmptyArchive`
(archive/common.go, lines 468-576): populate a header skeleton with the
right multiplicities so its serialized size is stable, compute
`EndingSize`, measure the header, place global logs, head end pointers,
image area and tail end pointers, verify `sentinelEnd ≤ imgAreaEnd`, and
write the checksum `h` of the zero-checksum header into `CvtmMagic`. -/
def buildEmptyArchiveLayout (h : List Nat → List Nat) (conf : NewArchiveOptions) :
    Except WriteErr ArchiveLayout :=
  match writeEmptyArchiveEndingSize conf with
  | none => .error .unknownCipher
  | some es =>
    let skeleton : ArchiveHeaderWrite :=
      { checksum := zeros 32
        headerLength := 0
        endPointerChec := conf.endPointerChecksum
        endPointerLoca := List.replicate (conf.endPointersHead + conf.endPointersTail) 0
        endingCipherAlgo := conf.endingCipher
        endingCipherKey := writeEmptyArchiveEndingKey conf
        endingSize := es
        globalLogLocat := conf.globalLogs.map (fun _ => (0, 0))
        imageArea := (0, 0)
        imgCipher := conf.imgCipher
        imgClusterSizeExp := conf.imgClusterSizeExp
        imageLog := conf.imgLogs.map (fun _ => 0) }
    let headerSize := (serializeHeader skeleton).length
    let a := conf.alignmentBlocks
    let s0 := alignUp64 headerSize (a * 512) / 512
    let gfold := conf.globalLogs.foldl
      (fun (acc : Nat × List (Nat × Nat)) sz =>
        (acc.1 + alignUp64 sz a, acc.2 ++ [(u32 acc.1, sz)])) (s0, [])
    let epStart := gfold.1
    let headLoca := (List.range conf.endPointersHead).map (fun i => u32 (epStart + i * a))
    let imgAreaStart := epStart + conf.endPointersHead * a
    let imgAreaEnd : Int :=
      (alignDown64 (conf.diskSize / 512) a : Int) - a * conf.endPointersTail
    let tailLoca := (List.range conf.endPointersTail).map
      (fun i => u32 (u32I imgAreaEnd + u32 (u32 i * u32 a)))
    let sentinelEnd := imgAreaStart + es
    if (sentinelEnd : Int) > imgAreaEnd then .error .notEnoughSpace
    else
      let hdr0 : ArchiveHeaderWrite :=
        { skeleton with
          headerLength := u32 headerSize
          endPointerLoca := headLoca ++ tailLoca
          globalLogLocat := gfold.2
          imageArea := (u32 imgAreaStart, u32I imgAreaEnd)
          imageLog := conf.imgLogs }
      .ok { endingSize := es, headerSize := headerSize, endPointerStart := epStart,
            imgAreaStart := imgAreaStart, imgAreaEnd := imgAreaEnd,
            sentinelEnd := sentinelEnd,
            header := { hdr0 with checksum := fit32 (h (serializeHeader hdr0)) } }

/-- The serialized `NO-MORE-IMAGES` sentinel entry. -/
def noMoreImagesBytes : List Nat := writeEntry idNoMoreImages schemaNoMoreImages ⟨[], []⟩

/-- Go `writeImageEnding` for data that needs no encryption: the entry
bytes padded with random bytes to exactly `blocks` 512-byte blocks (the
padding always comes from the random source, whatever the fill method). -/
def writeImageEnding (rand : List Nat) (data : List Nat) (blocks : Nat) :
    Except WriteErr (List Nat) :=
  if blocks * 512 < data.length then .error .endingTooLong
  else if rand.length < blocks * 512 - data.length then .error .randExhausted
  else .ok (data ++ rand.take (blocks * 512 - data.length))

/-- Go `alignWriter`'s forward-seek amount from position `cur` to the next
multiple of `alignment`: `(alignment-1) & -cur` over `int64`. -/
def alignPad (cur alignment : Nat) : Nat :=
  Nat.land (alignment - 1) ((2 ^ 64 - cur % 2 ^ 64) % 2 ^ 64)

/-- Go `writeRepeatedly` under zero fill, starting at position `cur`:
each copy of `block` is followed by alignment padding. -/
def writeRepeatedly (block : List Nat) (count cur alignment : Nat) : List Nat :=
  match count with
  | 0 => []
  | c + 1 =>
    let w := block ++ zeros (alignPad (cur + block.length) alignment)
    w ++ writeRepeatedly block c (cur + w.length) alignment

/-- Go `WriteEmptyArchive` (archive/common.go, lines 468-623), zero-fill
path, producing the full on-disk byte string: (a) the serialized header;
(b) zeros up to the first end pointer; (c) the head end-pointer copies;
(d)-(e) the sentinel at `imgAreaStart·512`, padded to `EndingSize` blocks;
(f)-(g) the tail end-pointer copies at `imgAreaEnd·512`; (h) zeros up to
`DiskSize`.  `sentinelData` is the serialized sentinel entry — for the
Null cipher `noMoreImagesBytes`, for RSA its RSA-OAEP ciphertext (the
encryption itself is an external library call). -/
def writeEmptyArchive (h : List Nat → List Nat) (rand : List Nat)
    (sentinelData : List Nat) (conf : NewArchiveOptions) : Except WriteErr (List Nat) :=
  match buildEmptyArchiveLayout h conf with
  | .error e => .error e
  | .ok lay =>
    let headerBytes := serializeHeader lay.header
    let au := conf.alignmentBlocks * 512
    if lay.endPointerStart * 512 < headerBytes.length then .error .writerCrash
    else
      let ptr := makeEndPointer h lay.sentinelEnd
      let part1 := headerBytes ++ zeros (lay.endPointerStart * 512 - headerBytes.length)
      let headPart := writeRepeatedly ptr conf.endPointersHead (lay.endPointerStart * 512) au
      let pos1 := lay.endPointerStart * 512 + headPart.length
      if lay.imgAreaStart * 512 < pos1 then .error .writerCrash
      else
        match writeImageEnding rand sentinelData lay.endingSize with
        | .error e => .error e
        | .ok sentinel =>
          let pos2 := lay.imgAreaStart * 512 + lay.endingSize * 512
          if (lay.imgAreaEnd * 512 : Int) < (pos2 : Int) then .error .writerCrash
          else
            let endPos : Nat := (lay.imgAreaEnd * 512).toNat
            let part2 := zeros (lay.imgAreaStart * 512 - pos1) ++ sentinel ++
              zeros (endPos - pos2)
            let tailPart := writeRepeatedly ptr conf.endPointersTail endPos au
            let pos3 := endPos + tailPart.length
            if conf.diskSize < pos3 then .error .writerCrash
            else .ok (part1 ++ headPart ++ part2 ++ tailPart ++ zeros (conf.diskSize - pos3))

/-- The reader's cap on `EndingSize` (`maxEndingSize`, src/unnamed/part_001). -/
def maxEndingSize : Nat := 32

instance instDecEqExcept {ε α : Type} [DecidableEq ε] [DecidableEq α] :
    DecidableEq (Except ε α)
  | .ok x, .ok y =>
    if h : x = y then .isTrue (congrArg Except.ok h)
    else .isFalse (fun he => h (Except.ok.inj he))
  | .error x, .error y =>
    if h : x = y then .isTrue (congrArg Except.error h)
    else .isFalse (fun he => h (Except.error.inj he))
  | .ok _, .error _ => .isFalse (fun he => Except.noConfusion he)
  | .error _, .ok _ => .isFalse (fun he => Except.noConfusion he)

/-- Scenario configuration: Null ending cipher, SHA-256 end-pointer
checksum, one tail pointer, alignment unit one block, 3-block (1536-byte)
disk, zero fill.  The smallest archive the writer accepts: header in block
0, sentinel in block 1, tail end pointer in block 2. -/
def confNull : NewArchiveOptions :=
  { diskSize := 1536, globalLogs := [], imgLogs := [], endPointersHead := 0,
    endPointersTail := 1, endingCipher := 0, endPointerChecksum := 0,
    rsaKeySize := 0, rsaKeyBytes := [], imgCipher := 0, imgClusterSizeExp := 3,
    alignmentBlocks := 1 }

/-- Scenario configuration: RSA ending cipher with a 2048-bit key (256-byte
modulus, 270 marshalled key bytes), 1 MiB disk. -/
def confRSA : NewArchiveOptions :=
  { diskSize := 1048576, globalLogs := [], imgLogs := [], endPointersHead := 1,
    endPointersTail := 1, endingCipher := 1, endPointerChecksum := 0,
    rsaKeySize := 256, rsaKeyBytes := List.replicate 270 7, imgCipher := 0,
    imgClusterSizeExp := 3, alignmentBlocks := 1 }

/-- The header the writer assembles for `confNull` (under the trivial
checksum primitive `fun _ => zeros 32`). -/
def hdrNull : ArchiveHeaderWrite :=
  { checksum := zeros 32, headerLength := 205, endPointerChec := 0,
    endPointerLoca := [2], endingCipherAlgo := 0, endingCipherKey := [],
    endingSize := 1, globalLogLocat := [], imageArea := (1, 2), imgCipher := 0,
    imgClusterSizeExp := 3, imageLog := [] }

/-- The layout the writer computes for `confNull` (checked by the witness
of `c3_end_pointer_block_offset`): header of 205 bytes, image area `[1, 2)`,
sentinel ending at block 2, tail end pointer at block 2. -/
def layNull : ArchiveLayout :=
  { endingSize := 1, headerSize := 205, endPointerStart := 1, imgAreaStart := 1,
    imgAreaEnd := 2, sentinelEnd := 2, header := hdrNull }

/-! ## The archive header reader (`readArchiveHeader` / `checkArchiveHeader`,
src/unnamed/part_001)

The reader consumes the first `HeaderLength` bytes of the file.  Reads are
modelled as returning everything available (`bufio` satisfies the two reads
fully whenever the file is long enough; under-reads map to `earlyEOF`).
The SHA-256 primitive of the self-check is again the function argument `h`;
the `crypto/x509` key parse and the private-key presence of the RSA branch
are the Boolean arguments `keyParseOk` and `privGiven` (they decide which
warnings and errors the check emits; the key bytes themselves are opaque
to the reader). -/

/-- Go `entries.ArchiveHeaderRead`, each record reduced to its field
values; absent records keep Go zero values. -/
structure ArchiveHeaderRead where
  allocateOnce : Nat
  endPointerChec : Nat
  endPointerLoca : List Nat
  endingCipherAlgo : Nat
  endingCipherKey : List Nat
  endingSize : Nat
  globalLogLocat : List (Nat × Nat)
  imageArea : Nat × Nat
  imgCipher : Nat
  imgClusterSizeExp : Nat
  imageLog : List Nat
  sdCid : Nat
  deriving DecidableEq, Repr

/-- Reader-side errors (`readArchiveHeader` and its callees). -/
inductive RdErr where
  | earlyEOF
  | badMagic
  | badEntrySize
  | badHeaderSize
  | headerTooBig
  | badEntry (pos : Nat)
  | crash
  | badChecksum
  | checkFailed
  deriving DecidableEq, Repr

/-- The bucket of entries carrying one TypeID, in encounter order (Go's
`map[EntryTypeID][]entryRead`). -/
def bucketOf (ents : List EntryRead) (id : List Nat) : List EntryRead :=
  ents.filter (fun e => e.typeId == id)

/-- Bind a scalar record field: absent keeps the zero value, multiple
instances warn and take the last, a parse failure is fatal (Go
`parseEntries`, struct case). -/
def bindScalar (ents : List EntryRead) (id : List Nat) (s : Schema) :
    Except RdErr (Option Payload) :=
  match (bucketOf ents id).getLast? with
  | none => .ok none
  | some e =>
    match parseEntry s e.data with
    | none => .error (.badEntry e.atPos)
    | some p => .ok (some p)

/-- Parse every entry of a repeated record field in encounter order (Go
`parseEntries`, slice case). -/
def parseAll (s : Schema) : List EntryRead → Except RdErr (List Payload)
  | [] => .ok []
  | e :: rest =>
    match parseEntry s e.data with
    | none => .error (.badEntry e.atPos)
    | some p =>
      match parseAll s rest with
      | .error er => .error er
      | .ok ps => .ok (p :: ps)

/-- First fixed field value of a payload (0 when the record was absent). -/
def val0 (p : Option Payload) : Nat :=
  match p with
  | none => 0
  | some q => q.vals.getD 0 0

/-- Second fixed field value of a payload. -/
def val1 (p : Option Payload) : Nat :=
  match p with
  | none => 0
  | some q => q.vals.getD 1 0

/-- Go `parseEntries` specialised to `ArchiveHeaderRead`: split the region
into entries, then bind each expected field from its TypeID bucket in
struct field order; unknown TypeIDs are only warned about. -/
def bindArchiveHeaderRead (data : List Nat) (skipped : Nat) :
    Except RdErr ArchiveHeaderRead :=
  match splitEntries data skipped with
  | .badEntry p => .error (.badEntry p)
  | .crash => .error .crash
  | .ok ents => do
    let ao ← bindScalar ents idAllocateOnce schemaAllocateOnce
    let epc ← bindScalar ents idEndPointerChec schemaEndPointerChec
    let epl ← parseAll schemaEndPointerLoca (bucketOf ents idEndPointerLoca)
    let ec ← bindScalar ents idEndingCipher schemaEndingCipher
    let esz ← bindScalar ents idEndingSize schemaEndingSize
    let gll ← parseAll schemaGlobalLogLocat (bucketOf ents idGlobalLogLocat)
    let ia ← bindScalar ents idImageArea schemaImageArea
    let ib ← bindScalar ents idImageBasic schemaImageBasic
    let il ← parseAll schemaImageLog (bucketOf ents idImageLog)
    let sc ← bindScalar ents idSdCid schemaSdCid
    pure { allocateOnce := val0 ao
           endPointerChec := val0 epc
           endPointerLoca := epl.map (fun p => p.vals.getD 0 0)
           endingCipherAlgo := val0 ec
           endingCipherKey := (ec.map Payload.tail).getD []
           endingSize := val0 esz
           globalLogLocat := gll.map (fun p => (p.vals.getD 0 0, p.vals.getD 1 0))
           imageArea := (val0 ia, val1 ia)
           imgCipher := val0 ib
           imgClusterSizeExp := val1 ib
           imageLog := il.map (fun p => p.vals.getD 0 0)
           sdCid := val0 sc }

/-- Errors collected by `checkArchiveHeader` (warnings are not modelled —
they never stop the reader). -/
inductive ChkErr where
  | endingSizeTooBig
  | encryptedWithoutKey
  | unknownEndingCipher
  | unknownChecksumAlgo
  | noEndPointers
  | badEndPointerLocation (blk : Nat)
  deriving DecidableEq, Repr

/-- Go `checkArchiveHeader` (src/unnamed/part_001, lines 275-331): the
collected fatal errors, in emission order.  `keyParseOk` is the outcome of
`x509.ParsePKCS1PublicKey` on the header's key (a parse failure only warns
and skips the private-key check); `privGiven` tells whether a private key
was supplied.  A mismatching public key only warns. -/
def checkArchiveHeader (privGiven keyParseOk : Bool) (hdr : ArchiveHeaderRead)
    (headerSize : Nat) : List ChkErr :=
  (if maxEndingSize < hdr.endingSize then [.endingSizeTooBig] else []) ++
  (match hdr.endingCipherAlgo with
   | 0 => []
   | 1 =>
     if keyParseOk = false then []
     else if privGiven = false then [.encryptedWithoutKey]
     else []
   | _ => [.unknownEndingCipher]) ++
  (if 2 < hdr.endPointerChec then [.unknownChecksumAlgo] else []) ++
  (if hdr.endPointerLoca.length = 0 then [.noEndPointers] else []) ++
  ((hdr.endPointerLoca.filter (fun e =>
      ! (decide ((headerSize + 512 - 1) / 512 ≤ e ∧ e < hdr.imageArea.1) ||
         decide (hdr.imageArea.2 ≤ e)))).map .badEndPointerLocation)

/-- Go `readArchiveHeader` (src/unnamed/part_001, lines 198-273) on the
file bytes: read and validate the first 56 bytes (magic, first entry size,
`HeaderLength` bounds), read the rest of the header, verify the SHA-256
self-checksum over the header with bytes `[20,52)` zeroed, bind the
remaining entries, default `EndingSize` 0 to 1, and run
`checkArchiveHeader`. -/
def readArchiveHeader (h : List Nat → List Nat) (privGiven keyParseOk : Bool)
    (file : List Nat) : Except RdErr ArchiveHeaderRead :=
  if file.length < 56 then .error .earlyEOF
  else if ! (file.take 16 == idCvtmMagic) then .error .badMagic
  else if readLE32 file 16 < 56 then .error .badEntrySize
  else if readLE32 file 52 < readLE32 file 16 then .error .badHeaderSize
  else if 1048576 < readLE32 file 52 then .error .headerTooBig
  else if file.length < readLE32 file 52 then .error .earlyEOF
  else if ! (h (setSlice (file.take (readLE32 file 52)) 20 (zeros 32)) ==
      ((file.drop 20).take 32)) then .error .badChecksum
  else
    match bindArchiveHeaderRead
        ((file.take (readLE32 file 52)).drop (readLE32 file 16)) (readLE32 file 16) with
    | .error e => .error e
    | .ok hdr0 =>
      let hdr := if hdr0.endingSize = 0 then { hdr0 with endingSize := 1 } else hdr0
      if checkArchiveHeader privGiven keyParseOk hdr (readLE32 file 52) = [] then .ok hdr
      else .error .checkFailed

/-- `Except` success as a Boolean. -/
def isOkE : Except ε α → Bool
  | .ok _ => true
  | .error _ => false

/-- Flip bit `b` of a byte string (bit `b % 8` of byte `b / 8`). -/
def flipBit (data : List Nat) (b : Nat) : List Nat :=
  data.set (b / 8) (Nat.xor (data.getD (b / 8) 0) (2 ^ (b % 8)))

/-- The reader-side image of a writer header whose records all parse back
to themselves (used to state C2 about the header the RSA writer emits). -/
def hdrReadOfWrite (h : ArchiveHeaderWrite) : ArchiveHeaderRead :=
  { allocateOnce := 0, endPointerChec := h.endPointerChec,
    endPointerLoca := h.endPointerLoca, endingCipherAlgo := h.endingCipherAlgo,
    endingCipherKey := h.endingCipherKey, endingSize := h.endingSize,
    globalLogLocat := h.globalLogLocat, imageArea := h.imageArea,
    imgCipher := h.imgCipher, imgClusterSizeExp := h.imgClusterSizeExp,
    imageLog := h.imageLog, sdCid := 0 }

/-- The `confNull` archive bytes under the trivial checksum primitive. -/
def archiveNull : List Nat :=
  (writeEmptyArchive (fun _ => zeros 32) (zeros 512) noMoreImagesBytes confNull).toOption.getD []

/-- A checksum primitive that depends on byte 56 of its input (the first
TypeID byte after the first entry), so that flipping that byte changes the
checksum — a stand-in for SHA-256's sensitivity in the C8 witness. -/
def hashByte56 : List Nat → List Nat := fun d => d.getD 56 0 :: zeros 31

/-- The `confNull` archive bytes under `hashByte56`. -/
def archiveH1 : List Nat :=
  (writeEmptyArchive hashByte56 (zeros 512) noMoreImagesBytes confNull).toOption.getD []

/-! ## The extraction loop and the QCOW2 synthesizer
(`ExtractArchive` / `extractImage`, src/unnamed/part_001)

`extractImage` is pure arithmetic over the ending's fields and the int32
top-level index values read from the archive; the embedding computes the
QCOW2 header fields, the L1 table entries and the extent of the written
output file.  Go `uint64` arithmetic is `Nat` with `% 2^64`; the int32
index values are `Int`. -/

/-- The decision the `ExtractArchive` loop head takes for the current walk
position (src/unnamed/part_001, lines 645-650):

    if endAt <= int64(header.ImageArea.Start) { return error }
    else if endAt == int64(header.ImageArea.Start) { break }

`endAt` is a byte offset; `startBlk` is `ImageArea.Start`, a block count —
the source compares them without the `·512` scaling. -/
inductive WalkAction where
  | fatalOutside
  | stopClean
  | keepWalking
  deriving DecidableEq, Repr

def extractLoopGuard (endAt startBlk : Int) : WalkAction :=
  if endAt ≤ startBlk then .fatalOutside
  else if endAt = startBlk then .stopClean
  else .keepWalking

/-- The inputs `extractImage` consumes for one image: `allocatedBytes` is
`end - start` (nonnegative, the walk checks `start ≤ end`); the other
scalars are the ending's fields; `rawL1` is the list of int32 values the
top-level index read loop yields (one per `l1Data` slot). -/
structure ImageInput where
  allocatedBytes : Nat
  dataClusterCount : Nat
  clusterSizeExp : Nat
  clustersOffset : Nat
  rawL1 : List Int
  deriving DecidableEq, Repr

/-- `clusterExp := 9 + ending.Ending.ClusterSizeExp` — byte arithmetic,
wrapping mod 256. -/
def clusterExpOf (i : ImageInput) : Nat := (9 + i.clusterSizeExp) % 256

/-- `allocatedClusters := (end - start + 512*int64(off)) >> clusterExp`
(arithmetic shift of a nonnegative int64). -/
def allocatedClustersOf (i : ImageInput) : Nat :=
  (i.allocatedBytes + 512 * i.clustersOffset) / 2 ^ clusterExpOf i

/-- Reinterpret a `uint32` bit pattern as Go `int32`. -/
def toInt32 (n : Nat) : Int :=
  if n % 2 ^ 32 < 2 ^ 31 then (n % 2 ^ 32 : Int) else (n % 2 ^ 32 : Int) - 2 ^ 32

/-- `len(l1Data) = -(int32(-dataClusterCount) >> (clusterExp - 2))`: the
uint32 negation, the int32 reinterpretation, the arithmetic right shift
(`Int.fdiv` by the power of two; the shift count is byte arithmetic), and
the final negation.  For `dataClusterCount ≤ 2^31` this is
`ceil(dataClusterCount / 2^(clusterExp-2))`; beyond that Go's `make` gets a
negative length and panics. -/
def l1LenI (i : ImageInput) : Int :=
  -(Int.fdiv (toInt32 ((2 ^ 32 - i.dataClusterCount % 2 ^ 32) % 2 ^ 32))
    (2 ^ ((clusterExpOf i + 254) % 256)))

/-- `l1ClusterCount := -(-len(l1Data) >> (clusterExp - 4))` over `int`. -/
def l1ClusterCountI (i : ImageInput) (len : Nat) : Int :=
  -(Int.fdiv (-(len : Int)) (2 ^ ((clusterExpOf i + 252) % 256)))

/-- Go `readIndex`'s demotion: negative values pass through (any negative
is treated as unallocated downstream; values other than -1 are only logged),
and a nonnegative value greater than `allocatedClusters` becomes -1 with a
warning. -/
def readIndexDemote (ac : Nat) (v : Int) : Int :=
  if v < 0 then v else if (ac : Int) < v then -1 else v

/-- The `l1Data` array after the read loop. -/
def l1DataOf (i : ImageInput) : List Int :=
  i.rawL1.map (readIndexDemote (allocatedClustersOf i))

/-- `l2AtSrc`: the nonnegative `l1Data` values, sorted ascending
(Go `sort.Ints`). -/
def l2AtSrcOf (i : ImageInput) : List Nat :=
  ((((l1DataOf i).filter (fun v => decide (0 ≤ v))).map Int.toNat).mergeSort
    (fun a b => decide (a ≤ b)))

/-- `countL2TablesBefore := sort.SearchInts(l2AtSrc, c)`: the lower-bound
index, i.e. the first position whose element is `≥ c` (`length` when none
is). -/
def countL2TablesBefore (i : ImageInput) (c : Nat) : Nat :=
  (l2AtSrcOf i).findIdx (fun x => decide (c ≤ x))

/-- `l1Start := uint64(1) << clusterExp`. -/
def l1StartOf (i : ImageInput) : Nat := 2 ^ clusterExpOf i % 2 ^ 64

/-- `regularClustersEntryOffset := 0x8000000000000000 |
(l1Start + uint64(l1ClusterCount) << clusterExp)`. -/
def regularClustersEntryOffsetOf (i : ImageInput) : Nat :=
  Nat.lor (2 ^ 63)
    ((l1StartOf i +
      ((l1ClusterCountI i (l1DataOf i).length % 2 ^ 64).toNat * 2 ^ clusterExpOf i)
        % 2 ^ 64) % 2 ^ 64)

/-- The QCOW2 v3 header fields `extractImage` emits (the fields the claims
speak about; the rest are zero or constant). -/
structure Qcow3HeaderM where
  clusterBits : Nat
  size : Nat
  l1Size : Nat
  l1TableOffset : Nat
  refcountTableOffset : Nat
  refcountTableClusters : Nat
  incompatibleFeatures : Nat
  headerLength : Nat
  deriving DecidableEq, Repr

/-- The header `extractImage` writes (src/unnamed/part_001, lines 554-565). -/
def qcowHeaderOf (i : ImageInput) : Qcow3HeaderM :=
  { clusterBits := clusterExpOf i
    size := i.dataClusterCount * 2 ^ clusterExpOf i % 2 ^ 64
    l1Size := 2 * (l1DataOf i).length % 2 ^ 32
    l1TableOffset := l1StartOf i
    refcountTableOffset := 2 ^ clusterExpOf i % 2 ^ 64
    refcountTableClusters := 1
    incompatibleFeatures := 1
    headerLength := 104 }

/-- The first of the two 8-byte big-endian L1 entries emitted for an
allocated source top-level value `n`:
`at = regular + ((countL2TablesBefore(n) + n) << clusterExp)` (uint64). -/
def l1EntryA (i : ImageInput) (n : Nat) : Nat :=
  (regularClustersEntryOffsetOf i +
    (countL2TablesBefore i n + n) * 2 ^ clusterExpOf i % 2 ^ 64) % 2 ^ 64

/-- The pair of 8-byte big-endian L1 entries emitted for one source
top-level value (zeros when unallocated; otherwise `at` and
`at + (1 << clusterExp)`). -/
def l1EntryAt (i : ImageInput) (l2 : Int) : Nat × Nat :=
  if l2 < 0 then (0, 0)
  else (l1EntryA i l2.toNat,
    (l1EntryA i l2.toNat + 2 ^ clusterExpOf i % 2 ^ 64) % 2 ^ 64)

/-- The full L1 table, two entries per source top-level value. -/
def l1TableOf (i : ImageInput) : List (Nat × Nat) :=
  (l1DataOf i).map (l1EntryAt i)

/-- Bytes the L2/data copy loop writes: for each source L2 table position
(ascending), the data clusters before it plus two output L2 tables. -/
def copyLoopBytes (cl : Nat) : List Nat → Nat → Nat
  | [], _ => 0
  | x :: xs, lastL2 => (x - lastL2) * cl + 2 * cl + copyLoopBytes cl xs x

/-- Total bytes written after seeking to the data area: the copy loop plus
the final `io.CopyN(dest, src, allocatedBytes - lastL2·cl)` (which writes
nothing when the count is negative). -/
def dataBytesWritten (i : ImageInput) : Nat :=
  copyLoopBytes (2 ^ clusterExpOf i) (l2AtSrcOf i) 0 +
    (i.allocatedBytes - (l2AtSrcOf i).getLastD 0 * 2 ^ clusterExpOf i)

/-- The data-area base: `regularClustersEntryOffset & 0x7fffffffffffffff`
(the seek target for the L2/data region). -/
def dataBaseOf (i : ImageInput) : Nat :=
  Nat.land (regularClustersEntryOffsetOf i) (2 ^ 63 - 1)

/-- The extent of the written output file: the 104-byte header, the L1
table at `l1Start`, and — when the copy loop writes anything — the data
region at `dataBase`. -/
def outFileSize (i : ImageInput) : Nat :=
  max (max 104 (l1StartOf i + 16 * (l1DataOf i).length))
    (if dataBytesWritten i = 0 then 0 else dataBaseOf i + dataBytesWritten i)

/-- A small synthesizable image: cluster 4 KiB (`ClusterSizeExp = 3`), four
data clusters, one top-level entry pointing at source cluster 2. -/
def imgSmall : ImageInput :=
  { allocatedBytes := 16384, dataClusterCount := 4, clusterSizeExp := 3,
    clustersOffset := 1, rawL1 := [2] }

/-- An image whose ending declares `ClusterSizeExp = 30`: the synthesizer
accepts it and emits `cluster_bits = 39`. -/
def imgBigExp : ImageInput :=
  { allocatedBytes := 0, dataClusterCount := 1, clusterSizeExp := 30,
    clustersOffset := 0, rawL1 := [-1] }

/-! # Theorems -/

/-! ## Little-endian helper lemmas -/

theorem leVal_leBytes (w n : Nat) : leVal (leBytes w n) = n % 256 ^ w := by
  induction w generalizing n with
  | zero => simp [leBytes, leVal, Nat.mod_one]
  | succ w ih =>
    simp only [leBytes, leVal, ih]
    have hp : 256 ^ (w + 1) = 256 * 256 ^ w := by ring
    rw [hp, Nat.mod_mul]

theorem length_leBytes (w n : Nat) : (leBytes w n).length = w := by
  induction w generalizing n with
  | zero => rfl
  | succ w ih => simp [leBytes, ih]

/-! ## Codec lemmas -/

theorem length_encodeFields {ws vs : List Nat}
    (h : List.Forall₂ (fun w v => v < 256 ^ w) ws vs) :
    (encodeFields ws vs).length = ws.sum := by
  induction h with
  | nil => rfl
  | cons hx hrest ih => simp [encodeFields, length_leBytes, ih]

theorem parseFields_encodeFields {ws vs : List Nat}
    (h : List.Forall₂ (fun w v => v < 256 ^ w) ws vs) (rest : List Nat) :
    parseFields ws (encodeFields ws vs ++ rest) = vs := by
  induction h generalizing rest with
  | nil => rfl
  | @cons w v ws vs hx hrest ih =>
    simp only [encodeFields, parseFields, List.append_assoc]
    refine congrArg₂ _ ?_ ?_
    · rw [List.take_left' (length_leBytes w v), leVal_leBytes, Nat.mod_eq_of_lt hx]
    · rw [List.drop_left' (length_leBytes w v)]
      exact ih rest

/-- `writeEntry` on a destructured payload, as a rewriting equation. -/
theorem writeEntry_def (id : List Nat) (s : Schema) (pvals ptail : List Nat) :
    writeEntry id s ⟨pvals, ptail⟩ =
      id ++ leBytes 4 (20 + (encodeFields s.widths pvals ++ ptail).length) ++
        (encodeFields s.widths pvals ++ ptail) := rfl

/-- Every registered TypeID is 16 bytes long. -/
theorem registry_id_length {id : List Nat} {s : Schema}
    (hreg : (id, s) ∈ entryRegistry) : id.length = 16 := by
  fin_cases hreg <;> rfl

/-- The step budget of `splitEntriesFuel` is irrelevant as soon as it covers
the input length. -/
theorem splitEntriesFuel_irrel (fuel fuel2 : Nat) :
    ∀ data start, data.length ≤ fuel → data.length ≤ fuel2 →
      splitEntriesFuel fuel data start = splitEntriesFuel fuel2 data start := by
  induction fuel generalizing fuel2 with
  | zero =>
    intro data start h1 _
    have hd : data = [] := List.eq_nil_of_length_eq_zero (by omega)
    subst hd
    cases fuel2 <;> simp [splitEntriesFuel]
  | succ fuel ih =>
    intro data start h1 h2
    cases fuel2 with
    | zero =>
      have hd : data = [] := List.eq_nil_of_length_eq_zero (by omega)
      subst hd
      simp [splitEntriesFuel]
    | succ fuel2 =>
      simp only [splitEntriesFuel]
      split_ifs with hc1 hc2 hc3 hc4
      · rfl
      · rfl
      · rfl
      · rfl
      · rw [ih fuel2 (data.drop (readLE32 data 16)) (start + readLE32 data 16)
          (by simp only [List.length_drop]; omega)
          (by simp only [List.length_drop]; omega)]

/-- Budget-free unfolding of `splitEntries`, matching the Go loop body. -/
theorem splitEntries_eq (data : List Nat) (start : Nat) :
    splitEntries data start =
      if data.length = 0 then .ok []
      else if data.length < 20 then .badEntry start
      else if data.length < readLE32 data 16 then .badEntry start
      else if readLE32 data 16 < 20 then .crash
      else
        match splitEntries (data.drop (readLE32 data 16))
            (start + readLE32 data 16) with
        | .ok rest =>
          .ok (⟨start, data.take 16, (data.take (readLE32 data 16)).drop 20⟩ :: rest)
        | e => e := by
  unfold splitEntries
  obtain ⟨m, hm⟩ : ∃ m, data.length = m ∧ (m = 0 ∨ 0 < m) := ⟨data.length, rfl, by omega⟩
  rcases hm.2 with h0 | hpos
  · have hd : data = [] := List.eq_nil_of_length_eq_zero (by omega)
    subst hd
    simp [splitEntriesFuel]
  · obtain ⟨k, hk⟩ : ∃ k, data.length = k + 1 := ⟨data.length - 1, by omega⟩
    rw [hk]
    simp only [splitEntriesFuel]
    rw [← hk]
    split_ifs with hc1 hc2 hc3 hc4
    · rfl
    · rfl
    · rfl
    · rfl
    · rw [splitEntriesFuel_irrel k ((data.drop (readLE32 data 16)).length)
        (data.drop (readLE32 data 16)) (start + readLE32 data 16)
        (by simp only [List.length_drop]; omega) (le_refl _)]

/-! ## C7 — decoding of short payloads -/

/-- **C7, counterexample.**  The claim says a payload that stops exactly on a
field boundary but omits trailing fixed fields decodes successfully with the
omitted fields zeroed.  For the registered `ENDING` TypeID, the 4-byte
payload `leBytes 4 1` stops exactly after the first fixed field (`Length`,
width 4), yet `parseEntry` rejects it: the whole-struct `binary.Read` dies
on its non-pointer destination, and the manual field loop's read of the
second field hits `io.EOF`, which the code maps to `badEntry`. -/
theorem c7_boundary_truncation_cex :
    (schemaEnding.widths.take 1).sum = 4 ∧
      parseEntry schemaEnding (leBytes 4 1) = none := by decide

/-- **C7 (amended).**  For every registered TypeID, decoding succeeds
exactly when the payload covers the whole fixed-field set; *every* shorter
payload — the empty one included, whether or not it stops on a field
boundary — fails with `BadEntry`.  The omitted-trailing-fields tolerance
the claim (and the spec's E2) describe is dead code: the whole-struct
`binary.Read` that would return the tolerated `io.EOF` receives a
non-pointer struct and fails with an invalid-type error before reading. -/
theorem c7_truncation_behavior (id : List Nat) (s : Schema)
    (hreg : (id, s) ∈ entryRegistry) (data : List Nat) :
    ((parseEntry s data).isSome = true ↔ s.totalFixed ≤ data.length) ∧
    (0 < s.totalFixed → parseEntry s [] = none) := by
  clear hreg
  constructor
  · unfold parseEntry
    split_ifs <;> simp_all <;> omega
  · intro hpos
    unfold parseEntry
    rw [if_pos (by simpa using hpos)]

/-- **C7, witness** for `c7_truncation_behavior` at the `ENDING` TypeID and
a payload stopping on the first field boundary. -/
theorem c7_truncation_behavior_witness :
    (idEnding, schemaEnding) ∈ entryRegistry ∧
      (((parseEntry schemaEnding (leBytes 4 1)).isSome = true ↔
        schemaEnding.totalFixed ≤ (leBytes 4 1).length) ∧
      (0 < schemaEnding.totalFixed → parseEntry schemaEnding [] = none)) :=
  ⟨by decide, c7_truncation_behavior idEnding schemaEnding (by decide) (leBytes 4 1)⟩

/-! ## C9 — region splitting is not total: a short declared length panics -/

/-- **C9.**  The claim says region splitting never panics and that an
in-bounds entry with declared `Length` below the 20-byte minimum yields
`BadEntry`.  In the code, a 20-byte region whose single entry declares
`Length = 5` reaches `data[20:entSize]` with `entSize = 5`, a slice-bounds
violation: the reader *panics* instead of returning `BadEntry`. -/
theorem c9_short_declared_length_crashes :
    splitEntries (List.replicate 16 65 ++ leBytes 4 5) 0 = SplitResult.crash ∧
    (List.replicate 16 65 ++ leBytes 4 5).length = 20 ∧
    readLE32 (List.replicate 16 65 ++ leBytes 4 5) 16 = 5 := by decide

/-! ## C10 — entry round-trip -/

/-- **C10.**  For every registered TypeID and every legal payload (each
fixed field fits its width; the total entry length fits the 32-bit length
field), splitting the bytes produced by `writeEntry` recovers exactly one
entry carrying that TypeID and the encoded payload, and `parseEntry`
decodes the payload back unchanged. -/
theorem c10_entry_round_trip (id : List Nat) (s : Schema) (p : Payload)
    (hreg : (id, s) ∈ entryRegistry) (hp : legalPayload s p)
    (hsize : 20 + s.totalFixed + p.tail.length < 2 ^ 32) :
    splitEntries (writeEntry id s p) 0 =
      SplitResult.ok [⟨0, id, encodeFields s.widths p.vals ++ p.tail⟩] ∧
    parseEntry s (encodeFields s.widths p.vals ++ p.tail) = some p := by
  obtain ⟨pvals, ptail⟩ := p
  obtain ⟨hvals, -, htl⟩ := hp
  replace hsize : 20 + s.totalFixed + ptail.length < 2 ^ 32 := hsize
  have hid : id.length = 16 := registry_id_length hreg
  have hbl : (encodeFields s.widths pvals ++ ptail).length =
      s.totalFixed + ptail.length := by
    simp [length_encodeFields hvals, Schema.totalFixed]
  have hwl : (writeEntry id s ⟨pvals, ptail⟩).length =
      20 + (encodeFields s.widths pvals ++ ptail).length := by
    rw [writeEntry_def]
    simp [hid, length_leBytes]
    omega
  constructor
  · rw [splitEntries_eq]
    have hsz : readLE32 (writeEntry id s ⟨pvals, ptail⟩) 16 =
        20 + (encodeFields s.widths pvals ++ ptail).length := by
      rw [writeEntry_def]
      unfold readLE32
      rw [List.append_assoc, List.drop_left' hid, List.take_left' (length_leBytes 4 _),
        leVal_leBytes, Nat.mod_eq_of_lt]
      rw [show (256 : Nat) ^ 4 = 2 ^ 32 by norm_num]
      omega
    rw [hsz, hwl]
    rw [if_neg (show ¬ (20 + (encodeFields s.widths pvals ++ ptail).length = 0) by omega)]
    rw [if_neg (show ¬ (20 + (encodeFields s.widths pvals ++ ptail).length < 20) by omega)]
    rw [if_neg (lt_irrefl _)]
    rw [if_neg (show ¬ (20 + (encodeFields s.widths pvals ++ ptail).length < 20) by omega)]
    have hdropall : (writeEntry id s ⟨pvals, ptail⟩).drop
        (20 + (encodeFields s.widths pvals ++ ptail).length) = [] :=
      List.drop_eq_nil_of_le (by omega)
    rw [hdropall]
    have hnil : splitEntries [] (0 + (20 + (encodeFields s.widths pvals ++ ptail).length)) =
        .ok [] := rfl
    rw [hnil]
    have htake16 : (writeEntry id s ⟨pvals, ptail⟩).take 16 = id := by
      rw [writeEntry_def, List.append_assoc, List.take_left' hid]
    have htakeall : (writeEntry id s ⟨pvals, ptail⟩).take
        (20 + (encodeFields s.widths pvals ++ ptail).length) =
        writeEntry id s ⟨pvals, ptail⟩ :=
      List.take_of_length_le (by omega)
    rw [htake16, htakeall]
    have hdrop20 : (writeEntry id s ⟨pvals, ptail⟩).drop 20 =
        encodeFields s.widths pvals ++ ptail := by
      rw [writeEntry_def]
      exact List.drop_left' (by simp [hid, length_leBytes])
    rw [hdrop20]
  · unfold parseEntry
    rw [if_neg (show ¬ (encodeFields s.widths pvals ++ ptail).length < s.totalFixed
      by omega)]
    by_cases ht : s.hasTail = true
    · rw [if_pos ht]
      have hdrop : (encodeFields s.widths pvals ++ ptail).drop s.totalFixed = ptail :=
        List.drop_left' (by rw [length_encodeFields hvals]; rfl)
      rw [hdrop, parseFields_encodeFields hvals]
    · rw [if_neg ht]
      have htail : ptail = [] := htl (by simpa using ht)
      subst htail
      rw [parseFields_encodeFields hvals]

/-- **C10, witness** at the `ENDING` TypeID with a concrete legal payload. -/
theorem c10_entry_round_trip_witness :
    ((idEnding, schemaEnding) ∈ entryRegistry ∧
      legalPayload schemaEnding ⟨[24, 5, 0, 4, 3, 8], []⟩ ∧
      20 + schemaEnding.totalFixed + ([] : List Nat).length < 2 ^ 32) ∧
    (splitEntries (writeEntry idEnding schemaEnding ⟨[24, 5, 0, 4, 3, 8], []⟩) 0 =
      SplitResult.ok [⟨0, idEnding,
        encodeFields schemaEnding.widths [24, 5, 0, 4, 3, 8] ++ []⟩] ∧
    parseEntry schemaEnding (encodeFields schemaEnding.widths [24, 5, 0, 4, 3, 8] ++ []) =
      some ⟨[24, 5, 0, 4, 3, 8], []⟩) := by
  refine ⟨⟨by decide, ⟨?_, by simp, fun _ => rfl⟩, by decide⟩, ?_⟩
  · refine List.Forall₂.cons (by norm_num) ?_
    refine List.Forall₂.cons (by norm_num) ?_
    refine List.Forall₂.cons (by norm_num) ?_
    refine List.Forall₂.cons (by norm_num) ?_
    refine List.Forall₂.cons (by norm_num) ?_
    exact List.Forall₂.cons (by norm_num) List.Forall₂.nil
  · refine c10_entry_round_trip idEnding schemaEnding ⟨[24, 5, 0, 4, 3, 8], []⟩
      (by decide) ⟨?_, by simp, fun _ => rfl⟩ (by decide)
    refine List.Forall₂.cons (by norm_num) ?_
    refine List.Forall₂.cons (by norm_num) ?_
    refine List.Forall₂.cons (by norm_num) ?_
    refine List.Forall₂.cons (by norm_num) ?_
    refine List.Forall₂.cons (by norm_num) ?_
    exact List.Forall₂.cons (by norm_num) List.Forall₂.nil

/-! ## Writer lemmas -/

/-- Overwriting `[32,36)` of a zeroed 512-byte block with a 4-byte value. -/
theorem setSlice_zeros_512_32 (p : Nat) :
    setSlice (zeros 512) 32 (leBytes 4 p) = zeros 32 ++ leBytes 4 p ++ zeros 476 := by
  unfold setSlice zeros
  rw [List.length_replicate, length_leBytes, List.take_replicate, List.drop_replicate,
    List.take_of_length_le (by rw [length_leBytes]; omega)]
  norm_num

/-- The checksum copy in `makeEndPointer` touches only `[0,32)`: the stored
32-bit target at `[32,36)` is the `uint32` image of `pointTo`, for every
checksum primitive `h`. -/
theorem readLE32_makeEndPointer (h : List Nat → List Nat) (p : Nat) :
    readLE32 (makeEndPointer h p) 32 = p % 2 ^ 32 := by
  unfold makeEndPointer readLE32
  set d := setSlice (zeros 512) 32 (leBytes 4 p) with hd
  set c := (computeEndPointerChecksum h d).take 32 with hc
  have hcl : c.length ≤ 32 := by rw [hc]; simpa using List.length_take_le 32 _
  have hdl : d.length = 512 := by
    rw [hd, setSlice_zeros_512_32]
    simp only [zeros, List.length_append, List.length_replicate, length_leBytes]
  have hss : setSlice d 0 c = c ++ d.drop c.length := by
    unfold setSlice
    rw [List.take_zero, List.nil_append, Nat.zero_add, hdl,
      List.take_of_length_le (by omega)]
  rw [hss]
  have hstep : (c ++ d.drop c.length).drop 32 = (d.drop c.length).drop (32 - c.length) := by
    conv_lhs => rw [show (32 : Nat) = c.length + (32 - c.length) by omega]
    exact List.drop_append _
  rw [hstep, List.drop_drop]
  rw [show c.length + (32 - c.length) = 32 by omega, hd, setSlice_zeros_512_32]
  rw [show zeros 32 ++ leBytes 4 p ++ zeros 476 = zeros 32 ++ (leBytes 4 p ++ zeros 476)
    by simp]
  rw [List.drop_left' (by simp [zeros]), List.take_left' (length_leBytes 4 p),
    leVal_leBytes]
  norm_num

/-! ## C1 — `EndingSize` of a fresh archive -/

/-- **C1.**  The claim (and the spec) say `EndingSize` is 1 block for the
Null cipher and `ceil(modulus_bytes / 512)` blocks for RSA — 1 block for a
2048-bit key.  The code computes `alignUp(256, 512) = 512` for a 256-byte
modulus, forgetting to divide by the block size: 512 blocks, not 1 — and
the reader's own `maxEndingSize` cap (32) rejects every such archive. -/
theorem c1_ending_size_eval :
    writeEmptyArchiveEndingSize confNull = some 1 ∧
    writeEmptyArchiveEndingSize confRSA = some 512 ∧
    (256 + 512 - 1) / 512 = 1 ∧
    maxEndingSize < 512 := by decide

/-! ## C3 — what an end-pointer block stores -/

set_option maxRecDepth 100000 in
/-- **C3, counterexample.**  For the freshly written `confNull` archive the
tail end-pointer block (at block 2, file bytes `[1024, 1536)`) stores the
32-bit little-endian value 2 = `imgAreaStart + EndingSize` — the *block*
offset of the end of the sentinel ending — not the byte offset
`(imgAreaStart + EndingSize) · 512 = 1024` the claim asserts. -/
theorem c3_stored_offset_cex :
    (buildEmptyArchiveLayout (fun _ => zeros 32) confNull).toOption.map
      (fun lay => (lay.imgAreaStart, lay.endingSize)) = some (1, 1) ∧
    (writeEmptyArchive (fun _ => zeros 32) (zeros 512) noMoreImagesBytes confNull).toOption.map
      (fun f => readLE32 f (2 * 512 + 32)) = some 2 ∧
    (2 : Nat) ≠ (1 + 1) * 512 := by decide

set_option maxRecDepth 100000 in
/-- **C3 (amended).**  In every end-pointer block the 32-bit little-endian
value at `[32,36)` is the offset of the end of the most recent ending in
512-byte *blocks* (the end-pointer selector multiplies it by 512 when
reading); for a freshly written empty archive the stored value is
`uint32(imgAreaStart + EndingSize)`, and the sentinel end the writer points
at is exactly `imgAreaStart + EndingSize`. -/
theorem c3_end_pointer_block_offset (h : List Nat → List Nat)
    (conf : NewArchiveOptions) (lay : ArchiveLayout)
    (hok : buildEmptyArchiveLayout h conf = .ok lay) :
    readLE32 (makeEndPointer h lay.sentinelEnd) 32 =
      u32 (lay.imgAreaStart + lay.endingSize) ∧
    lay.sentinelEnd = lay.imgAreaStart + lay.endingSize := by
  have h2 : lay.sentinelEnd = lay.imgAreaStart + lay.endingSize := by
    unfold buildEmptyArchiveLayout at hok
    split at hok
    · exact absurd hok (by simp)
    · simp only at hok
      split at hok
      · exact absurd hok (by simp)
      · injection hok with hlay
        subst hlay
        rfl
  exact ⟨by rw [h2, readLE32_makeEndPointer]; rfl, h2⟩

/-! ## Slice-stability lemmas for single-byte updates -/

theorem take_set_of_le {α : Type} (l : List α) (i k : Nat) (a : α) (hk : k ≤ i) :
    (l.set i a).take k = l.take k := by
  apply List.ext_getElem?
  intro n
  rw [List.getElem?_take, List.getElem?_take]
  split
  · next hn => rw [List.getElem?_set, if_neg (by omega)]
  · rfl

theorem slice_set_of_le {α : Type} (l : List α) (i pos len : Nat) (a : α)
    (hk : pos + len ≤ i) :
    ((l.set i a).drop pos).take len = (l.drop pos).take len := by
  rw [List.drop_set, if_neg (by omega)]
  exact take_set_of_le _ _ _ _ (by omega)

theorem length_flipBit (l : List Nat) (b : Nat) : (flipBit l b).length = l.length := by
  simp [flipBit]

theorem take_flipBit (l : List Nat) (b k : Nat) (hk : k ≤ b / 8) :
    (flipBit l b).take k = l.take k :=
  take_set_of_le _ _ _ _ hk

theorem slice_flipBit (l : List Nat) (b pos len : Nat) (hk : pos + len ≤ b / 8) :
    ((flipBit l b).drop pos).take len = (l.drop pos).take len :=
  slice_set_of_le _ _ _ _ _ hk

theorem readLE32_flipBit (l : List Nat) (b pos : Nat) (hk : pos + 4 ≤ b / 8) :
    readLE32 (flipBit l b) pos = readLE32 l pos :=
  congrArg leVal (slice_flipBit l b pos 4 hk)

set_option maxRecDepth 100000 in
/-- **C3, witness** for `c3_end_pointer_block_offset` at `confNull`. -/
theorem c3_end_pointer_block_offset_witness :
    buildEmptyArchiveLayout (fun _ => zeros 32) confNull = .ok layNull ∧
    (readLE32 (makeEndPointer (fun _ => zeros 32) layNull.sentinelEnd) 32 =
      u32 (layNull.imgAreaStart + layNull.endingSize) ∧
    layNull.sentinelEnd = layNull.imgAreaStart + layNull.endingSize) :=
  ⟨by decide,
   c3_end_pointer_block_offset (fun _ => zeros 32) confNull layNull (by decide)⟩

/-! ## C8 — checksum sensitivity of the header reader -/

set_option maxRecDepth 1000000 in
/-- **C8, counterexample.**  The claim says flipping any single bit outside
the checksum field `[20,52)` makes the reader fail with `BadChecksum` and
no other error kind.  On the valid freshly written `confNull` archive:
flipping bit 0 (inside the magic) gives `BadMagic`; flipping bit 3 of byte
16 (the first entry's size, 56 → 48) gives the entry-size error; flipping
bit 6 of byte 55 (the top `HeaderLength` byte) gives the header-too-big
error.  All three bits lie outside `[20,52)` and none of the errors is
`BadChecksum` — whatever the checksum function does. -/
theorem c8_flip_outside_checksum_cex :
    isOkE (readArchiveHeader (fun _ => zeros 32) true true archiveNull) = true ∧
    readArchiveHeader (fun _ => zeros 32) true true (flipBit archiveNull 0) =
      .error .badMagic ∧
    readArchiveHeader (fun _ => zeros 32) true true (flipBit archiveNull (16 * 8 + 3)) =
      .error .badEntrySize ∧
    readArchiveHeader (fun _ => zeros 32) true true (flipBit archiveNull (55 * 8 + 6)) =
      .error .headerTooBig := by decide

/-- **C8 (amended).**  For a header the reader accepts, flipping a single
bit at a byte position in `[56, HeaderLength)` — outside the checksum field
*and* outside the first entry's magic/size/header-length bytes `[0,56)` —
makes the reader fail with `BadChecksum`, provided the checksum function
maps the modified zeroed header to a value different from the stored
checksum (which SHA-256 does in practice).  Flips inside `[0,16)` instead
give `BadMagic`, and flips inside `[16,20)` or `[52,56)` can give size
errors, as the counterexample shows. -/
theorem c8_bit_flip_bad_checksum (h : List Nat → List Nat)
    (privGiven keyParseOk : Bool) (file : List Nat) (b : Nat)
    (hok : isOkE (readArchiveHeader h privGiven keyParseOk file) = true)
    (hlow : 56 * 8 ≤ b) (hhigh : b < 8 * readLE32 file 52)
    (hne : h (setSlice ((flipBit file b).take (readLE32 file 52)) 20 (zeros 32)) ≠
      (file.drop 20).take 32) :
    readArchiveHeader h privGiven keyParseOk (flipBit file b) =
      .error .badChecksum := by
  have hb8 : 56 ≤ b / 8 := by omega
  have hlen : (flipBit file b).length = file.length := length_flipBit file b
  have htk16 : (flipBit file b).take 16 = file.take 16 :=
    take_flipBit file b 16 (by omega)
  have hr16 : readLE32 (flipBit file b) 16 = readLE32 file 16 :=
    readLE32_flipBit file b 16 (by omega)
  have hr52 : readLE32 (flipBit file b) 52 = readLE32 file 52 :=
    readLE32_flipBit file b 52 (by omega)
  have hstored : ((flipBit file b).drop 20).take 32 = (file.drop 20).take 32 :=
    slice_flipBit file b 20 32 (by omega)
  unfold readArchiveHeader at hok ⊢
  rw [hlen, htk16, hr16, hr52, hstored]
  have h1 : ¬ file.length < 56 := by
    intro hc; rw [if_pos hc] at hok; exact absurd hok (by simp [isOkE])
  rw [if_neg h1] at hok ⊢
  have h2 : ¬ ((! (file.take 16 == idCvtmMagic)) = true) := by
    intro hc; rw [if_pos hc] at hok; exact absurd hok (by simp [isOkE])
  rw [if_neg h2] at hok ⊢
  have h3 : ¬ readLE32 file 16 < 56 := by
    intro hc; rw [if_pos hc] at hok; exact absurd hok (by simp [isOkE])
  rw [if_neg h3] at hok ⊢
  have h4 : ¬ readLE32 file 52 < readLE32 file 16 := by
    intro hc; rw [if_pos hc] at hok; exact absurd hok (by simp [isOkE])
  rw [if_neg h4] at hok ⊢
  have h5 : ¬ 1048576 < readLE32 file 52 := by
    intro hc; rw [if_pos hc] at hok; exact absurd hok (by simp [isOkE])
  rw [if_neg h5] at hok ⊢
  have h6 : ¬ file.length < readLE32 file 52 := by
    intro hc; rw [if_pos hc] at hok; exact absurd hok (by simp [isOkE])
  rw [if_neg h6]
  have hc : (! (h (setSlice ((flipBit file b).take (readLE32 file 52)) 20 (zeros 32)) ==
      (file.drop 20).take 32)) = true := by
    rw [Bool.not_eq_true', beq_eq_false_iff_ne]
    exact hne
  rw [if_pos hc]

set_option maxRecDepth 1000000 in
/-- **C8, witness** for `c8_bit_flip_bad_checksum`: the `confNull` archive
written under the byte-56-sensitive checksum primitive, with bit 448
(byte 56, bit 0) flipped. -/
theorem c8_bit_flip_bad_checksum_witness :
    (isOkE (readArchiveHeader hashByte56 true true archiveH1) = true ∧
     56 * 8 ≤ 448 ∧ 448 < 8 * readLE32 archiveH1 52 ∧
     hashByte56 (setSlice ((flipBit archiveH1 448).take (readLE32 archiveH1 52))
       20 (zeros 32)) ≠ (archiveH1.drop 20).take 32) ∧
    readArchiveHeader hashByte56 true true (flipBit archiveH1 448) =
      .error .badChecksum :=
  ⟨⟨by decide, by decide, by decide, by decide⟩,
   c8_bit_flip_bad_checksum hashByte56 true true archiveH1 448
     (by decide) (by decide) (by decide) (by decide)⟩

/-! ## C2 — what extraction does to a freshly written archive -/

set_option maxRecDepth 100000 in
/-- **C2.**  The claim says that for *every* legal configuration extraction
of a fresh empty archive walks to the sentinel and reports zero images.
For the RSA configuration `confRSA` the writer emits a header carrying
`EndingSize = 512` blocks (the C1 bug), and the reader's own
`checkArchiveHeader` rejects exactly that value (`512 > maxEndingSize`),
so `ExtractArchive` fails with an error before the chain walk instead of
reporting zero images. -/
theorem c2_rsa_archive_unreadable :
    (buildEmptyArchiveLayout (fun _ => zeros 32) confRSA).toOption.map
      (fun lay => (lay.endingSize,
        checkArchiveHeader true true (hdrReadOfWrite lay.header) lay.headerSize)) =
      some (512, [ChkErr.endingSizeTooBig]) ∧
    maxEndingSize < 512 := by decide

/-! ## C4 — the chain-walk termination guard -/

/-- **C4.**  The claim says the walk stops cleanly when
`endAt = ImageArea.Start·512` and fails only when `endAt` is strictly
smaller.  In the code the first branch tests `endAt <= ImageArea.Start`
(bytes against blocks, and `<=` rather than `<`), so the equality branch
that would break cleanly is unreachable dead code; at
`endAt = Start·512 = 131072` (with `Start = 256`) the walk neither stops
nor fails but keeps reading, and at `endAt = Start = 256` it errors. -/
theorem c4_walk_guard_eval :
    (∀ endAt startBlk : Int, extractLoopGuard endAt startBlk ≠ .stopClean) ∧
    extractLoopGuard (512 * 256) 256 = .keepWalking ∧
    extractLoopGuard 300 256 = .keepWalking ∧
    extractLoopGuard 256 256 = .fatalOutside := by
  refine ⟨?_, by decide, by decide, by decide⟩
  intro e s
  unfold extractLoopGuard
  split_ifs with h1 h2
  · simp
  · exact absurd h2.le h1
  · simp

/-! ## C5 — placement of refcount table, L1 table and data clusters -/

/-- **C5.**  The claim (and the spec's diagram) put the refcount table at
`1·cluster`, the L1 table at `2·cluster` and the data at
`(2 + L1_clusters)·cluster`.  The code writes `L1TableOffset =
RefcountTableOffset = 1·cluster` — the L1 table overwrites the cluster the
header reserves for the refcount table, contradicting the code's own
comment that an empty reference-count table is written — and the data area
starts at `(1 + L1_clusters)·cluster`. -/
theorem c5_qcow_layout_eval :
    (qcowHeaderOf imgSmall).refcountTableOffset = 1 * 4096 ∧
    (qcowHeaderOf imgSmall).l1TableOffset = 1 * 4096 ∧
    (qcowHeaderOf imgSmall).l1TableOffset ≠ 2 * 4096 ∧
    dataBaseOf imgSmall = (1 + 1) * 4096 ∧
    dataBaseOf imgSmall ≠ (2 + 1) * 4096 := by decide

/-! ## C6 — QCOW2 header and L1-table validity -/

/-- **C6, counterexample.**  Nothing validates `ClusterSizeExp`: an ending
declaring `ClusterSizeExp = 30` synthesizes an image whose header carries
`cluster_bits = 39 ∉ [9, 30]`. -/
theorem c6_cluster_bits_cex :
    (qcowHeaderOf imgBigExp).clusterBits = 39 ∧ ¬ (9 ≤ 39 ∧ 39 ≤ 30) := by decide

/-- Go's `-(int32(-a) >> s)` idiom (arithmetic shift of the negation) is
ceiling division by `2^s`. -/
theorem neg_fdiv_pow_ceil (a s : Nat) :
    -(Int.fdiv (-(a : Int)) ((2 : Int) ^ s)) = (((a + 2 ^ s - 1) / 2 ^ s : Nat) : Int) := by
  have hb : (0 : Int) < 2 ^ s := by positivity
  have hp : (0 : Nat) < 2 ^ s := by positivity
  rw [Int.fdiv_eq_ediv _ (le_of_lt hb)]
  rcases Nat.eq_zero_or_pos a with ha | ha
  · subst ha
    rw [Nat.div_eq_of_lt (by omega)]
    simp
  · have hqr : 2 ^ s * (a / 2 ^ s) + a % 2 ^ s = a := Nat.div_add_mod a (2 ^ s)
    have hrlt : a % 2 ^ s < 2 ^ s := Nat.mod_lt _ hp
    set q := a / 2 ^ s with hq
    set r := a % 2 ^ s with hr
    have hceil : (a + 2 ^ s - 1) / 2 ^ s = if r = 0 then q else q + 1 := by
      split
      · next h0 =>
        have hx : a + 2 ^ s - 1 = 2 ^ s * q + (2 ^ s - 1) := by omega
        rw [hx, Nat.mul_add_div hp, Nat.div_eq_of_lt (by omega), Nat.add_zero]
      · next h0 =>
        have hx : a + 2 ^ s - 1 = 2 ^ s * (q + 1) + (r - 1) := by
          have hd : 2 ^ s * (q + 1) = 2 ^ s * q + 2 ^ s := by ring
          omega
        rw [hx, Nat.mul_add_div hp, Nat.div_eq_of_lt (by omega), Nat.add_zero]
    rw [hceil]
    split
    · next h0 =>
      have haq : 2 ^ s * q = a := by omega
      have hc : ((2 : Int) ^ s) * q = (a : Int) := by exact_mod_cast haq
      have heq : (0 : Int) + 2 ^ s * (-(q : Int)) = -(a : Int) := by linarith
      have hdiv := ((Int.ediv_emod_unique hb).mpr ⟨heq, le_refl 0, hb⟩).1
      rw [hdiv, neg_neg]
    · next h0 =>
      have hc : ((2 : Int) ^ s) * q + r = a := by exact_mod_cast hqr
      have heq : ((2 ^ s - r : Nat) : Int) + 2 ^ s * (-((q : Nat) + 1 : Int)) = -(a : Int) := by
        push_cast [Nat.cast_sub hrlt.le]
        linarith
      have hdiv := ((Int.ediv_emod_unique hb).mpr
        ⟨heq, by positivity, by exact_mod_cast Nat.sub_lt hp (by omega)⟩).1
      rw [hdiv]
      push_cast
      ring

/-- Setting the top bit of a small value is addition. -/
theorem two_pow_lor_eq_add (k x : Nat) (h : x < 2 ^ k) :
    Nat.lor (2 ^ k) x = 2 ^ k + x := by
  have hx := (Nat.mul_add_lt_is_or h 1).symm
  simpa [Nat.mul_one] using hx

/-- With `ClusterSizeExp ≤ 21` the byte addition `9 + ClusterSizeExp`
does not wrap. -/
theorem clusterExp_eq (i : ImageInput) (he : i.clusterSizeExp ≤ 21) :
    clusterExpOf i = 9 + i.clusterSizeExp := by
  unfold clusterExpOf
  omega

/-- For in-range inputs the `l1Data` length expression is ceiling division
by `2^(clusterExp-2)`. -/
theorem l1LenI_eq (i : ImageInput) (he : i.clusterSizeExp ≤ 21)
    (hd : i.dataClusterCount ≤ 2 ^ 31) :
    l1LenI i = (((i.dataClusterCount + 2 ^ (clusterExpOf i - 2) - 1) /
      2 ^ (clusterExpOf i - 2) : Nat) : Int) := by
  have hE := clusterExp_eq i he
  have hsh : (clusterExpOf i + 254) % 256 = clusterExpOf i - 2 := by omega
  unfold l1LenI
  rw [hsh]
  rcases Nat.eq_zero_or_pos i.dataClusterCount with h0 | hpos
  · rw [h0]
    have hlt : (0 : Nat) + 2 ^ (clusterExpOf i - 2) - 1 < 2 ^ (clusterExpOf i - 2) := by
      have : (0 : Nat) < 2 ^ (clusterExpOf i - 2) := by positivity
      omega
    rw [Nat.div_eq_of_lt hlt]
    norm_num [toInt32]
  · have hm1 : i.dataClusterCount % 2 ^ 32 = i.dataClusterCount :=
      Nat.mod_eq_of_lt (by omega)
    rw [hm1]
    have hm2 : (2 ^ 32 - i.dataClusterCount) % 2 ^ 32 = 2 ^ 32 - i.dataClusterCount :=
      Nat.mod_eq_of_lt (by omega)
    rw [hm2]
    have h3 : toInt32 (2 ^ 32 - i.dataClusterCount) = -(i.dataClusterCount : Int) := by
      unfold toInt32
      rw [hm2, if_neg (by omega), Nat.cast_sub (by omega : i.dataClusterCount ≤ 2 ^ 32)]
      omega
    rw [h3, neg_fdiv_pow_ceil]

/-- The `l1ClusterCount` expression is ceiling division by
`2^(clusterExp-4)`. -/
theorem l1ClusterCountI_eq (i : ImageInput) (he : i.clusterSizeExp ≤ 21) (len : Nat) :
    l1ClusterCountI i len =
      (((len + 2 ^ (clusterExpOf i - 4) - 1) / 2 ^ (clusterExpOf i - 4) : Nat) : Int) := by
  have hE := clusterExp_eq i he
  have hsh : (clusterExpOf i + 252) % 256 = clusterExpOf i - 4 := by omega
  unfold l1ClusterCountI
  rw [hsh]
  exact neg_fdiv_pow_ceil len _

/-- In a `≤`-sorted list every member is at most the last element,
whatever the default. -/
theorem mem_le_getLastD : ∀ (l : List Nat), List.Sorted (· ≤ ·) l →
    ∀ x ∈ l, ∀ d, x ≤ l.getLastD d := by
  intro l
  induction l with
  | nil => intro _ x hx; cases hx
  | cons a t ih =>
    intro hs x hx d
    rw [List.sorted_cons] at hs
    rw [List.getLastD_cons]
    rcases List.mem_cons.mp hx with rfl | hx
    · rcases List.mem_cons.mp (List.getLastD_mem_cons t x) with heq | hmem
      · exact le_of_eq heq.symm
      · exact hs.1 _ hmem
    · exact ih hs.2 x hx a

/-- The bytes the copy loop writes dominate `lastL2·cl + 2·k·cl`. -/
theorem copyLoopBytes_ge (cl : Nat) :
    ∀ (l : List Nat) (prev : Nat), List.Sorted (· ≤ ·) l → (∀ x ∈ l, prev ≤ x) →
      (l.getLastD prev - prev) * cl + 2 * l.length * cl ≤ copyLoopBytes cl l prev := by
  intro l
  induction l with
  | nil => intro prev _ _; simp [copyLoopBytes, List.getLastD]
  | cons x xs ih =>
    intro prev hs hp
    rw [List.sorted_cons] at hs
    have hpx : prev ≤ x := hp x (List.mem_cons_self x xs)
    have hxG : x ≤ xs.getLastD x := by
      rcases List.mem_cons.mp (List.getLastD_mem_cons xs x) with heq | hmem
      · exact le_of_eq heq.symm
      · exact hs.1 _ hmem
    have hIH := ih x hs.2 (fun y hy => hs.1 y hy)
    rw [List.getLastD_cons]
    calc (xs.getLastD x - prev) * cl + 2 * (x :: xs).length * cl
        ≤ ((x - prev) + (xs.getLastD x - x)) * cl + 2 * (x :: xs).length * cl := by
          exact Nat.add_le_add_right (Nat.mul_le_mul_right _ (by omega)) _
      _ = (x - prev) * cl + 2 * cl +
            ((xs.getLastD x - x) * cl + 2 * xs.length * cl) := by
          simp only [List.length_cons]
          ring
      _ ≤ (x - prev) * cl + 2 * cl + copyLoopBytes cl xs x :=
          Nat.add_le_add_left hIH _
      _ = copyLoopBytes cl (x :: xs) prev := rfl

/-- A nonnegative demoted index is at most `allocatedClusters`. -/
theorem readIndexDemote_le (ac : Nat) (w : Int) (h : 0 ≤ readIndexDemote ac w) :
    (readIndexDemote ac w).toNat ≤ ac := by
  unfold readIndexDemote at h ⊢
  split_ifs at h ⊢ with h1 h2
  · omega
  · omega
  · exact Int.toNat_le.mpr (by omega)

/-- A nonnegative `l1Data` value lands in `l2AtSrc`. -/
theorem toNat_mem_l2AtSrc (i : ImageInput) (v : Int) (hv : v ∈ l1DataOf i)
    (h0 : 0 ≤ v) : v.toNat ∈ l2AtSrcOf i := by
  unfold l2AtSrcOf
  rw [List.mem_mergeSort]
  exact List.mem_map_of_mem Int.toNat
    (List.mem_filter.mpr ⟨hv, by simpa using h0⟩)

/-- Every `l2AtSrc` element is a nonnegative demoted `l1Data` value. -/
theorem l2AtSrc_le_ac (i : ImageInput) :
    ∀ n ∈ l2AtSrcOf i, n ≤ allocatedClustersOf i := by
  intro n hn
  unfold l2AtSrcOf at hn
  rw [List.mem_mergeSort] at hn
  obtain ⟨v, hv, rfl⟩ := List.mem_map.mp hn
  have hf := List.mem_filter.mp hv
  have h0 : (0 : Int) ≤ v := by simpa using hf.2
  obtain ⟨w, _, rfl⟩ := List.mem_map.mp hf.1
  exact readIndexDemote_le _ _ h0

/-- `l2AtSrc` is sorted ascending. -/
theorem l2AtSrc_sorted (i : ImageInput) : List.Sorted (· ≤ ·) (l2AtSrcOf i) :=
  List.sorted_mergeSort' _

set_option maxRecDepth 100000 in
/-- **C6.**  The claim holds only under in-range side conditions the code
itself never checks: `ClusterSizeExp ≤ 21` (so `cluster_bits = 9 + exp`
neither wraps the byte addition mod 256 nor leaves `[9, 30]` —
`c6_cluster_bits_cex` shows `ClusterSizeExp = 30` yields
`cluster_bits = 39`), `DataClusterCount ≤ 2^31`, `ClustersOffset < 2^32`,
`allocatedBytes ≤ 2^41`, and a source top-level index of exactly the
length the code computes.  Under those conditions `cluster_bits ∈ [9, 30]`,
`L1Size` equals twice the number of source top-level entries, and every
nonzero entry of the emitted L1 table has its top bit set and (top bit
stripped) points inside the written output file. -/
theorem c6_qcow_validity (i : ImageInput)
    (he : i.clusterSizeExp ≤ 21) (hd : i.dataClusterCount ≤ 2 ^ 31)
    (hoff : i.clustersOffset < 2 ^ 32) (hab : i.allocatedBytes ≤ 2 ^ 41)
    (hlen : (i.rawL1.length : Int) = l1LenI i) :
    (9 ≤ (qcowHeaderOf i).clusterBits ∧ (qcowHeaderOf i).clusterBits ≤ 30) ∧
    (qcowHeaderOf i).l1Size = 2 * i.rawL1.length ∧
    (∀ p ∈ l1TableOf i,
      (p.1 ≠ 0 → 2 ^ 63 ≤ p.1 ∧ p.1 % 2 ^ 63 < outFileSize i) ∧
      (p.2 ≠ 0 → 2 ^ 63 ≤ p.2 ∧ p.2 % 2 ^ 63 < outFileSize i)) := by
  set E := clusterExpOf i with hEdef
  set L := i.rawL1.length with hLdef
  have hE : E = 9 + i.clusterSizeExp := by rw [hEdef]; exact clusterExp_eq i he
  have hpEhi : (2 : Nat) ^ E ≤ 2 ^ 30 := Nat.pow_le_pow_right (by norm_num) (by omega)
  have hp2E : (0 : Nat) < 2 ^ E := by positivity
  have hlen' : L = (i.dataClusterCount + 2 ^ (E - 2) - 1) / 2 ^ (E - 2) := by
    have h := hlen.trans (l1LenI_eq i he hd)
    rw [← hEdef] at h
    exact_mod_cast h
  have hLd : L * 2 ^ (E - 2) ≤ i.dataClusterCount + 2 ^ (E - 2) - 1 := by
    rw [hlen']
    exact Nat.div_mul_le_self _ _
  have hub : i.dataClusterCount + 2 ^ (E - 2) - 1 ≤ 2 ^ 31 + 2 ^ 28 := by
    have h28 : (2 : Nat) ^ (E - 2) ≤ 2 ^ 28 := Nat.pow_le_pow_right (by norm_num) (by omega)
    omega
  have hL7 : L * 2 ^ 7 ≤ L * 2 ^ (E - 2) :=
    Nat.mul_le_mul (le_refl _) (Nat.pow_le_pow_right (by norm_num) (by omega))
  have hL25 : L ≤ 2 ^ 25 := by
    have h := le_trans hL7 (le_trans hLd hub)
    omega
  have hLmap : (l1DataOf i).length = L := by
    unfold l1DataOf
    rw [List.length_map]
  set cc := (L + 2 ^ (E - 4) - 1) / 2 ^ (E - 4) with hccdef
  have hccd : cc * 2 ^ (E - 4) ≤ L + 2 ^ (E - 4) - 1 := by
    rw [hccdef]
    exact Nat.div_mul_le_self _ _
  have hub2 : L + 2 ^ (E - 4) - 1 ≤ 2 ^ 25 + 2 ^ 26 := by
    have h26 : (2 : Nat) ^ (E - 4) ≤ 2 ^ 26 := Nat.pow_le_pow_right (by norm_num) (by omega)
    omega
  have hccU : cc ≤ 2 ^ 25 + 2 ^ 26 := by
    have h1 : cc * 1 ≤ cc * 2 ^ (E - 4) :=
      Nat.mul_le_mul (le_refl _) (Nat.one_le_two_pow)
    rw [mul_one] at h1
    exact le_trans h1 (le_trans hccd hub2)
  have hEsplit : (2 : Nat) ^ E = 2 ^ (E - 4) * 2 ^ 4 := by
    rw [← pow_add]
    congr 1
    omega
  have hccE : cc * 2 ^ E ≤ (2 ^ 25 + 2 ^ 26) * 2 ^ 4 := by
    rw [hEsplit, ← mul_assoc]
    exact Nat.mul_le_mul (le_trans hccd hub2) (le_refl _)
  have hccEq : l1ClusterCountI i (l1DataOf i).length = (cc : Int) := by
    rw [hLmap]
    have h := l1ClusterCountI_eq i he L
    rw [← hEdef] at h
    rw [← hccdef] at h
    exact h
  have hccI : (l1ClusterCountI i (l1DataOf i).length % 2 ^ 64).toNat = cc := by
    rw [hccEq,
      Int.emod_eq_of_lt (by positivity) (by exact_mod_cast (show cc < 2 ^ 64 by omega))]
    exact Int.toNat_natCast _
  have hl1S : l1StartOf i = 2 ^ E := by
    unfold l1StartOf
    rw [← hEdef]
    exact Nat.mod_eq_of_lt (by omega)
  have hreg : regularClustersEntryOffsetOf i = 2 ^ 63 + (2 ^ E + cc * 2 ^ E) := by
    unfold regularClustersEntryOffsetOf
    rw [hl1S, hccI, ← hEdef]
    rw [Nat.mod_eq_of_lt (show cc * 2 ^ E < 2 ^ 64 by omega)]
    rw [Nat.mod_eq_of_lt (show 2 ^ E + cc * 2 ^ E < 2 ^ 64 by omega)]
    exact two_pow_lor_eq_add 63 _ (by omega)
  have hdb : dataBaseOf i = 2 ^ E + cc * 2 ^ E := by
    unfold dataBaseOf
    rw [hreg]
    rw [show Nat.land (2 ^ 63 + (2 ^ E + cc * 2 ^ E)) (2 ^ 63 - 1) =
        (2 ^ 63 + (2 ^ E + cc * 2 ^ E)) % 2 ^ 63 from
      Nat.and_pow_two_sub_one_eq_mod _ 63]
    omega
  have hACd : allocatedClustersOf i * 2 ^ E ≤ i.allocatedBytes + 512 * i.clustersOffset := by
    unfold allocatedClustersOf
    rw [← hEdef]
    exact Nat.div_mul_le_self _ _
  have hAC : allocatedClustersOf i * 2 ^ E ≤ 2 ^ 42 := le_trans hACd (by omega)
  have hkL : (l2AtSrcOf i).length ≤ L := by
    unfold l2AtSrcOf
    rw [List.length_mergeSort, List.length_map]
    exact le_trans (List.length_filter_le _ _) (le_of_eq hLmap)
  have hdw : (l2AtSrcOf i).getLastD 0 * 2 ^ E + 2 * (l2AtSrcOf i).length * 2 ^ E ≤
      dataBytesWritten i := by
    have hcw := copyLoopBytes_ge (2 ^ E) (l2AtSrcOf i) 0 (l2AtSrc_sorted i)
      (fun x _ => Nat.zero_le x)
    simp only [Nat.sub_zero] at hcw
    unfold dataBytesWritten
    rw [← hEdef]
    omega
  refine ⟨⟨?_, ?_⟩, ?_, ?_⟩
  · show 9 ≤ E
    omega
  · show E ≤ 30
    omega
  · show 2 * (l1DataOf i).length % 2 ^ 32 = 2 * L
    rw [hLmap]
    exact Nat.mod_eq_of_lt (by omega)
  · intro p hp
    unfold l1TableOf at hp
    obtain ⟨v, hv, rfl⟩ := List.mem_map.mp hp
    by_cases hvneg : v < 0
    · have hz : l1EntryAt i v = (0, 0) := by
        unfold l1EntryAt
        rw [if_pos hvneg]
      rw [hz]
      exact ⟨fun h => absurd rfl h, fun h => absurd rfl h⟩
    · have h0 : (0 : Int) ≤ v := not_lt.mp hvneg
      have hmem : v.toNat ∈ l2AtSrcOf i := toNat_mem_l2AtSrc i v hv h0
      have hkpos : 0 < (l2AtSrcOf i).length := List.length_pos_of_mem hmem
      have hnac : v.toNat ≤ allocatedClustersOf i := l2AtSrc_le_ac i v.toNat hmem
      have hcntlt : countL2TablesBefore i v.toNat < (l2AtSrcOf i).length := by
        unfold countL2TablesBefore
        exact List.findIdx_lt_length.mpr ⟨v.toNat, hmem, by simp⟩
      have hck : v.toNat ≤ (l2AtSrcOf i).getLastD 0 :=
        mem_le_getLastD _ (l2AtSrc_sorted i) _ hmem 0
      have hnE : v.toNat * 2 ^ E ≤ 2 ^ 42 :=
        le_trans (Nat.mul_le_mul hnac (le_refl _)) hAC
      have hcntE : countL2TablesBefore i v.toNat * 2 ^ E ≤ 2 ^ 25 * 2 ^ 30 :=
        Nat.mul_le_mul (by omega) hpEhi
      have hXsplit : (countL2TablesBefore i v.toNat + v.toNat) * 2 ^ E =
          countL2TablesBefore i v.toNat * 2 ^ E + v.toNat * 2 ^ E := by ring
      have hX : (countL2TablesBefore i v.toNat + v.toNat) * 2 ^ E ≤ 2 ^ 55 + 2 ^ 42 := by
        omega
      have hA : l1EntryA i v.toNat = 2 ^ 63 + (2 ^ E + cc * 2 ^ E) +
          (countL2TablesBefore i v.toNat + v.toNat) * 2 ^ E := by
        unfold l1EntryA
        rw [← hEdef, hreg]
        rw [Nat.mod_eq_of_lt
          (show (countL2TablesBefore i v.toNat + v.toNat) * 2 ^ E < 2 ^ 64 by omega)]
        exact Nat.mod_eq_of_lt (by omega)
      have hfst : (l1EntryAt i v).1 = 2 ^ 63 + (2 ^ E + cc * 2 ^ E) +
          (countL2TablesBefore i v.toNat + v.toNat) * 2 ^ E := by
        unfold l1EntryAt
        rw [if_neg hvneg]
        exact hA
      have hsnd : (l1EntryAt i v).2 = 2 ^ 63 + (2 ^ E + cc * 2 ^ E) +
          (countL2TablesBefore i v.toNat + v.toNat) * 2 ^ E + 2 ^ E := by
        unfold l1EntryAt
        rw [if_neg hvneg]
        show (l1EntryA i v.toNat + 2 ^ clusterExpOf i % 2 ^ 64) % 2 ^ 64 = _
        rw [← hEdef, hA, Nat.mod_eq_of_lt (show (2 : Nat) ^ E < 2 ^ 64 by omega)]
        exact Nat.mod_eq_of_lt (by omega)
      have hstep2 : countL2TablesBefore i v.toNat + v.toNat + 2 ≤
          (l2AtSrcOf i).getLastD 0 + 2 * (l2AtSrcOf i).length := by omega
      have hmul2 : (countL2TablesBefore i v.toNat + v.toNat + 2) * 2 ^ E ≤
          ((l2AtSrcOf i).getLastD 0 + 2 * (l2AtSrcOf i).length) * 2 ^ E :=
        Nat.mul_le_mul hstep2 (le_refl _)
      have hdist : ((l2AtSrcOf i).getLastD 0 + 2 * (l2AtSrcOf i).length) * 2 ^ E =
          (l2AtSrcOf i).getLastD 0 * 2 ^ E + 2 * (l2AtSrcOf i).length * 2 ^ E := by ring
      have hsucc2 : (countL2TablesBefore i v.toNat + v.toNat + 2) * 2 ^ E =
          (countL2TablesBefore i v.toNat + v.toNat) * 2 ^ E + 2 ^ E + 2 ^ E := by ring
      have hchain2 : (countL2TablesBefore i v.toNat + v.toNat) * 2 ^ E + 2 ^ E <
          dataBytesWritten i := by omega
      have hdwne : dataBytesWritten i ≠ 0 := by omega
      have houtge : dataBaseOf i + dataBytesWritten i ≤ outFileSize i := by
        unfold outFileSize
        rw [if_neg hdwne]
        exact le_max_right _ _
      refine ⟨fun _ => ⟨?_, ?_⟩, fun _ => ⟨?_, ?_⟩⟩
      · rw [hfst]
        omega
      · rw [hfst]
        have hm : (2 ^ 63 + (2 ^ E + cc * 2 ^ E) +
            (countL2TablesBefore i v.toNat + v.toNat) * 2 ^ E) % 2 ^ 63 =
            2 ^ E + cc * 2 ^ E + (countL2TablesBefore i v.toNat + v.toNat) * 2 ^ E := by
          omega
        rw [hm]
        omega
      · rw [hsnd]
        omega
      · rw [hsnd]
        have hm : (2 ^ 63 + (2 ^ E + cc * 2 ^ E) +
            (countL2TablesBefore i v.toNat + v.toNat) * 2 ^ E + 2 ^ E) % 2 ^ 63 =
            2 ^ E + cc * 2 ^ E + (countL2TablesBefore i v.toNat + v.toNat) * 2 ^ E +
              2 ^ E := by
          omega
        rw [hm]
        omega

set_option maxRecDepth 1000000 in
/-- **C6, witness.**  The side conditions and the conclusion at the
concrete image `imgSmall`. -/
theorem c6_qcow_validity_witness :
    (imgSmall.clusterSizeExp ≤ 21 ∧ imgSmall.dataClusterCount ≤ 2 ^ 31 ∧
      imgSmall.clustersOffset < 2 ^ 32 ∧ imgSmall.allocatedBytes ≤ 2 ^ 41 ∧
      (imgSmall.rawL1.length : Int) = l1LenI imgSmall) ∧
    ((9 ≤ (qcowHeaderOf imgSmall).clusterBits ∧
        (qcowHeaderOf imgSmall).clusterBits ≤ 30) ∧
      (qcowHeaderOf imgSmall).l1Size = 2 * imgSmall.rawL1.length ∧
      (∀ p ∈ l1TableOf imgSmall,
        (p.1 ≠ 0 → 2 ^ 63 ≤ p.1 ∧ p.1 % 2 ^ 63 < outFileSize imgSmall) ∧
        (p.2 ≠ 0 → 2 ^ 63 ≤ p.2 ∧ p.2 % 2 ^ 63 < outFileSize imgSmall))) :=
  ⟨⟨by decide, by decide, by decide, by decide, by decide⟩,
    c6_qcow_validity imgSmall (by decide) (by decide) (by decide) (by decide) (by decide)⟩

end Cvtm
